import Mathlib

/-!
Portfolio.cpp: a shallow embedding and its verified properties

The C++ program keeps a `Portfolio` (a cash balance and a vector of `Stock`
holdings); every `Stock` carries its own `Transaction` history.

Modelling conventions
* `double` amounts are exact rationals (`ℚ`).
* `int` share counts are integers (`Int`).  The only `int` arithmetic that can leave the range
  of `int` is `quantity += additionalQty` in `Stock::addShares`.  It is modelled twice:
  `Stock.addShares` reads `int` as the unbounded integers, `Stock.addShares32` stores the sum
  as the 32-bit `int` of the compiled program does (`wrapInt`); the two agree whenever the sum
  is at most `INT_MAX` (`addShares32_eq_addShares`).  `Portfolio.buyStock` and
  `Portfolio.buyStock32` are built on them in the same way.
* `std::vector` is `List`; `push_back` appends at the end.
* A method that mutates its object returns the pair (outcome, object after the
  call).  A method that may throw has outcome type `Except Exn _`; the second
  component is the object as the `throw` leaves it.
* `Transaction::timestamp` (a wall clock reading) is not part of the model.
* `rand()` is an explicit argument: the draw `r : Nat` of `simulatePriceUpdate`, the
  sequence of draws `rand : Nat → Nat` of `simulateMarketUpdate`.
* Lines written to `cout` are returned as values where a claim is about them.
-/

namespace PortfolioCpp

/-! ## Transaction -/

/-- The `enum TransactionType`. -/
inductive TransactionType
  | BUY
  | SELL
  | PRICE_UPDATE
  deriving DecidableEq, Repr

/-- The `class Transaction` without its timestamp. -/
structure Transaction where
  type : TransactionType
  ticker : String
  price : ℚ
  quantity : Int
  deriving DecidableEq, Repr

/-- The method `Transaction::getValue`. -/
def Transaction.getValue (t : Transaction) : ℚ := t.price * t.quantity

/-- The method `Transaction::getType`. -/
def Transaction.getType (t : Transaction) : TransactionType := t.type

/-! ## Exceptions -/

/-- The only exception class the program throws, `std::invalid_argument`, with its message. -/
inductive Exn
  | invalid_argument (what : String)
  deriving DecidableEq, Repr

/-! ## Stock -/

/-- The `class Stock`. -/
structure Stock where
  ticker : String
  price : ℚ
  quantity : Int
  volatility : ℚ
  history : List Transaction
  deriving DecidableEq, Repr

/-- The constructor `Stock::Stock(t, p, q, vol)`: the fields are assigned, then the
guard throws on a negative argument, otherwise the initial BUY is recorded. -/
def Stock.ctor (t : String) (p : ℚ) (q : Int) (vol : ℚ) : Except Exn Stock :=
  if p < 0 ∨ q < 0 ∨ vol < 0 then
    .error (.invalid_argument "Price, quantity, and volatility must be non-negative.")
  else
    .ok { ticker := t, price := p, quantity := q, volatility := vol,
          history := [⟨.BUY, t, p, q⟩] }

/-- The method `Stock::getTicker`. -/
def Stock.getTicker (s : Stock) : String := s.ticker

/-- The method `Stock::getPrice`. -/
def Stock.getPrice (s : Stock) : ℚ := s.price

/-- The method `Stock::getQuantity`. -/
def Stock.getQuantity (s : Stock) : Int := s.quantity

/-- The method `Stock::getVolatility`. -/
def Stock.getVolatility (s : Stock) : ℚ := s.volatility

/-- The method `Stock::getValue`: `price * quantity`. -/
def Stock.getValue (s : Stock) : ℚ := s.price * s.quantity

/-- The method `Stock::updatePrice`. -/
def Stock.updatePrice (s : Stock) (newPrice : ℚ) : Except Exn Unit × Stock :=
  if newPrice ≥ 0 then
    (.ok (),
      { s with
        history := s.history ++ [⟨.PRICE_UPDATE, s.ticker, newPrice, s.quantity⟩]
        price := newPrice })
  else
    (.error (.invalid_argument "Price cannot be negative."), s)

/-- The method `Stock::addShares`, with `int` read as the unbounded integers: the sum
`quantity + additionalQty` is kept as it is.  See `Stock.addShares32` for the 32-bit `int`. -/
def Stock.addShares (s : Stock) (additionalQty : Int) (buyPrice : ℚ) :
    Except Exn Unit × Stock :=
  if additionalQty > 0 ∧ buyPrice ≥ 0 then
    (.ok (),
      { s with
        quantity := s.quantity + additionalQty
        history := s.history ++ [⟨.BUY, s.ticker, buyPrice, additionalQty⟩] })
  else
    (.error (.invalid_argument "Additional quantity and buy price must be positive."), s)

/-- The largest value of the 32-bit `int`. -/
def INT_MAX : Int := 2147483647

/-- The smallest value of the 32-bit `int`. -/
def INT_MIN : Int := -2147483648

/-- The value a 32-bit `int` holds when the result of an addition is `x`: `x` itself when it is
in the range of `int`, else `x` reduced modulo `2^32` into that range (two's complement
wrap-around, which is what the compiled program shows; the C++ standard leaves signed overflow
undefined). -/
def wrapInt (x : Int) : Int := (x + 2147483648) % 4294967296 - 2147483648

/-- The method `Stock::addShares` with `quantity` the 32-bit `int` of the source
(`int quantity; ... quantity += additionalQty;`). -/
def Stock.addShares32 (s : Stock) (additionalQty : Int) (buyPrice : ℚ) :
    Except Exn Unit × Stock :=
  if additionalQty > 0 ∧ buyPrice ≥ 0 then
    (.ok (),
      { s with
        quantity := wrapInt (s.quantity + additionalQty)
        history := s.history ++ [⟨.BUY, s.ticker, buyPrice, additionalQty⟩] })
  else
    (.error (.invalid_argument "Additional quantity and buy price must be positive."), s)

/-- The method `Stock::sellShares`. -/
def Stock.sellShares (s : Stock) (sellQty : Int) (sellPrice : ℚ) : Bool × Stock :=
  if sellQty > 0 ∧ sellQty ≤ s.quantity ∧ sellPrice ≥ 0 then
    (true,
      { s with
        quantity := s.quantity - sellQty
        history := s.history ++ [⟨.SELL, s.ticker, sellPrice, sellQty⟩] })
  else
    (false, s)

/-- The method `Stock::simulatePriceUpdate`, with the value `r` of `rand()` as an argument:
`change = (r % 200 - 100) / 100.0 * volatility * price`, then `updatePrice(price + change)`. -/
def Stock.simulatePriceUpdate (s : Stock) (r : Nat) : Except Exn Unit × Stock :=
  let change : ℚ := (((r % 200 : Nat) : Int) - 100 : Int) / 100 * s.volatility * s.price
  s.updatePrice (s.price + change)

/-! ## Portfolio -/

/-- The `class Portfolio`. -/
structure Portfolio where
  stocks : List Stock
  portfolioName : String
  cashBalance : ℚ
  deriving DecidableEq, Repr

/-- The constructor `Portfolio::Portfolio(name, initialCash)`. -/
def Portfolio.ctor (name : String) (initialCash : ℚ) : Portfolio :=
  { stocks := []
    portfolioName := if name.isEmpty then "Unnamed Portfolio" else name
    cashBalance := initialCash }

/-- The loop header shared by `removeStock`, `updateStockPrice`, `buyStock` and `sellStock`:
`for (it = stocks.begin(); it != stocks.end(); ++it) if (it->getTicker() == ticker) ...`.
The result is the position of the first holding with the ticker, given as the holdings
before it, the holding `*it` itself and the holdings after it; `none` when the loop runs
to `stocks.end()`. -/
def findTicker (ticker : String) : List Stock → Option (List Stock × Stock × List Stock)
  | [] => none
  | s :: rest =>
    if s.getTicker = ticker then some ([], s, rest)
    else
      match findTicker ticker rest with
      | none => none
      | some (pre, it, post) => some (s :: pre, it, post)

/-- The method `Portfolio::addStock`. -/
def Portfolio.addStock (p : Portfolio) (stock : Stock) : Portfolio :=
  { p with
    stocks := p.stocks ++ [stock]
    cashBalance := p.cashBalance - stock.getValue }

/-- The method `Portfolio::removeStock`. -/
def Portfolio.removeStock (p : Portfolio) (ticker : String) : Bool × Portfolio :=
  match findTicker ticker p.stocks with
  | some (pre, it, post) =>
    (true, { p with cashBalance := p.cashBalance + it.getValue, stocks := pre ++ post })
  | none => (false, p)

/-- The method `Portfolio::getTotalValue`: the running total starts at the cash balance and
each holding adds its value. -/
def Portfolio.getTotalValue (p : Portfolio) : ℚ :=
  p.stocks.foldl (fun total it => total + it.getValue) p.cashBalance

/-- The method `Portfolio::updateStockPrice`. -/
def Portfolio.updateStockPrice (p : Portfolio) (ticker : String) (newPrice : ℚ) :
    Except Exn Bool × Portfolio :=
  match findTicker ticker p.stocks with
  | some (pre, it, post) =>
    match it.updatePrice newPrice with
    | (.ok (), it1) => (.ok true, { p with stocks := pre ++ it1 :: post })
    | (.error e, it1) => (.error e, { p with stocks := pre ++ it1 :: post })
  | none => (.ok false, p)

/-- The line `buyStock` writes to `cout` when the cash does not cover the cost. -/
def insufficientCash (qty : Int) (ticker : String) : String :=
  "Insufficient cash to buy " ++ toString qty ++ " shares of " ++ ticker

/-- The method `Portfolio::buyStock`.  It returns `void`; the value of the outcome is the
list of lines written to `cout`. -/
def Portfolio.buyStock (p : Portfolio) (ticker : String) (price : ℚ) (qty : Int) :
    Except Exn (List String) × Portfolio :=
  match findTicker ticker p.stocks with
  | some (pre, it, post) =>
    let cost : ℚ := price * qty
    if cost ≤ p.cashBalance then
      match it.addShares qty price with
      | (.ok (), it1) =>
        (.ok [], { p with stocks := pre ++ it1 :: post, cashBalance := p.cashBalance - cost })
      | (.error e, it1) => (.error e, { p with stocks := pre ++ it1 :: post })
    else
      (.ok [insufficientCash qty ticker], p)
  | none =>
    let cost : ℚ := price * qty
    if cost ≤ p.cashBalance then
      match Stock.ctor ticker price qty (15 / 100) with
      | .ok stock => (.ok [], p.addStock stock)
      | .error e => (.error e, p)
    else
      (.ok [insufficientCash qty ticker], p)

/-- The method `Portfolio::buyStock` with share counts the 32-bit `int` of the source: as
`Portfolio.buyStock`, the held holding being changed by `Stock.addShares32`.  The value of the
outcome is the list of lines written to `cout`. -/
def Portfolio.buyStock32 (p : Portfolio) (ticker : String) (price : ℚ) (qty : Int) :
    Except Exn (List String) × Portfolio :=
  match findTicker ticker p.stocks with
  | some (pre, it, post) =>
    let cost : ℚ := price * qty
    if cost ≤ p.cashBalance then
      match it.addShares32 qty price with
      | (.ok (), it1) =>
        (.ok [], { p with stocks := pre ++ it1 :: post, cashBalance := p.cashBalance - cost })
      | (.error e, it1) => (.error e, { p with stocks := pre ++ it1 :: post })
    else
      (.ok [insufficientCash qty ticker], p)
  | none =>
    let cost : ℚ := price * qty
    if cost ≤ p.cashBalance then
      match Stock.ctor ticker price qty (15 / 100) with
      | .ok stock => (.ok [], p.addStock stock)
      | .error e => (.error e, p)
    else
      (.ok [insufficientCash qty ticker], p)

/-- The method `Portfolio::sellStock`. -/
def Portfolio.sellStock (p : Portfolio) (ticker : String) (qty : Int) (sellPrice : ℚ) :
    Bool × Portfolio :=
  match findTicker ticker p.stocks with
  | some (pre, it, post) =>
    match it.sellShares qty sellPrice with
    | (true, it1) =>
      let cash : ℚ := p.cashBalance + sellPrice * qty
      if it1.getQuantity = 0 then
        (true, { p with cashBalance := cash, stocks := pre ++ post })
      else
        (true, { p with cashBalance := cash, stocks := pre ++ it1 :: post })
    | (false, it1) => (false, { p with stocks := pre ++ it1 :: post })
  | none => (false, p)

/-- The loop of `Portfolio::simulateMarketUpdate` over the holdings still to visit; `rand i` is
the value of the `i`-th call of `rand()` and `i` counts the calls made so far.  A throw of
`simulatePriceUpdate` leaves the loop at once: the holdings visited before keep their new
prices, the remaining ones are not visited. -/
def simulateLoop (rand : Nat → Nat) : Nat → List Stock → Except Exn Unit × List Stock
  | _, [] => (.ok (), [])
  | i, it :: rest =>
    match it.simulatePriceUpdate (rand i) with
    | (.ok (), it1) =>
      ((simulateLoop rand (i + 1) rest).1, it1 :: (simulateLoop rand (i + 1) rest).2)
    | (.error e, it1) => (.error e, it1 :: rest)

/-- The method `Portfolio::simulateMarketUpdate`, with the sequence of `rand()` values as an
argument. -/
def Portfolio.simulateMarketUpdate (p : Portfolio) (rand : Nat → Nat) :
    Except Exn Unit × Portfolio :=
  ((simulateLoop rand 0 p.stocks).1, { p with stocks := (simulateLoop rand 0 p.stocks).2 })

/-- One line written to `cout` by `printDiversification`: a fixed text, or a ticker followed by
its percentage (kept as the number computed, not as its decimal rendering). -/
inductive Line
  | text (s : String)
  | share (ticker : String) (percentage : ℚ)
  deriving DecidableEq, Repr

/-- The method `Portfolio::printDiversification`; the result is the list of lines written. -/
def Portfolio.printDiversification (p : Portfolio) : List Line :=
  let totalValue : ℚ := p.getTotalValue - p.cashBalance
  if totalValue ≤ 0 then
    [.text "No stock value to analyze diversification"]
  else
    .text "Portfolio Diversification:" ::
      p.stocks.map (fun it => .share it.getTicker (it.getValue / totalValue * 100))

/-- The relative swing `(r % 200 - 100) / 100.0` that `simulatePriceUpdate` derives from the
value `r` of `rand()`. -/
def drawFactor (r : Nat) : ℚ := (((r % 200 : Nat) : Int) - 100 : Int) / 100

/-! ## Sequences of calls on one Stock -/

/-- One call of a mutating `Stock` method, with its arguments (`r` is the value of `rand()`). -/
inductive StockOp
  | updatePrice (newPrice : ℚ)
  | addShares (additionalQty : Int) (buyPrice : ℚ)
  | sellShares (sellQty : Int) (sellPrice : ℚ)
  | simulatePriceUpdate (r : Nat)
  deriving DecidableEq, Repr

/-- Whether a `void` method returned normally. -/
def returned {α : Type} : Except Exn α → Bool
  | .ok _ => true
  | .error _ => false

/-- A caller that performs one call on `s` and records whether it succeeded: a `void` method
succeeds when it returns without throwing, `sellShares` when it returns `true`.  The second
component is the Stock after the call. -/
def StockOp.call (s : Stock) : StockOp → Bool × Stock
  | .updatePrice newPrice => (returned (s.updatePrice newPrice).1, (s.updatePrice newPrice).2)
  | .addShares additionalQty buyPrice =>
    (returned (s.addShares additionalQty buyPrice).1, (s.addShares additionalQty buyPrice).2)
  | .sellShares sellQty sellPrice => s.sellShares sellQty sellPrice
  | .simulatePriceUpdate r =>
    (returned (s.simulatePriceUpdate r).1, (s.simulatePriceUpdate r).2)

/-- A caller that performs the calls in order on one Stock, catching every exception and going
on with the next call.  The result is the number of calls that succeeded and the final Stock. -/
def StockOp.run (s : Stock) : List StockOp → Nat × Stock
  | [] => (0, s)
  | op :: ops =>
    let r := op.call s
    let rest := StockOp.run r.2 ops
    ((if r.1 then 1 else 0) + rest.1, rest.2)

/-! ## Sequences of calls on one Portfolio -/

/-- One call of a `Portfolio` method that looks the ticker up, with its arguments. -/
inductive PortfolioOp
  | buyStock (ticker : String) (price : ℚ) (qty : Int)
  | sellStock (ticker : String) (qty : Int) (sellPrice : ℚ)
  | removeStock (ticker : String)
  | updateStockPrice (ticker : String) (newPrice : ℚ)
  deriving DecidableEq, Repr

/-- A caller that performs one call on `p` without catching anything, as the driver does: the
result is the portfolio after the call, or `none` when the call throws (the run ends there). -/
def PortfolioOp.call (p : Portfolio) : PortfolioOp → Option Portfolio
  | .buyStock ticker price qty =>
    if returned (p.buyStock ticker price qty).1 then some (p.buyStock ticker price qty).2
    else none
  | .sellStock ticker qty sellPrice => some (p.sellStock ticker qty sellPrice).2
  | .removeStock ticker => some (p.removeStock ticker).2
  | .updateStockPrice ticker newPrice =>
    if returned (p.updateStockPrice ticker newPrice).1 then
      some (p.updateStockPrice ticker newPrice).2
    else none

/-- The calls performed in order; `none` as soon as one of them throws. -/
def PortfolioOp.run (p : Portfolio) : List PortfolioOp → Option Portfolio
  | [] => some p
  | op :: ops =>
    match op.call p with
    | some p1 => PortfolioOp.run p1 ops
    | none => none

/-! ## Concrete portfolios -/

/-- The portfolio of the driver after its three initial purchases. -/
def retire : Portfolio :=
  { stocks :=
      [⟨"AAPL", 150, 50, 1 / 5, [⟨.BUY, "AAPL", 150, 50⟩]⟩,
       ⟨"GOOG", 2000, 10, 1 / 10, [⟨.BUY, "GOOG", 2000, 10⟩]⟩,
       ⟨"BND", 80, 100, 1 / 20, [⟨.BUY, "BND", 80, 100⟩]⟩]
    portfolioName := "Retirement Fund"
    cashBalance := 14500 }

/-- A portfolio with two holdings of one ticker, as two `addStock` calls with the ticker AAPL
leave it (starting from 50000 in cash). -/
def twoLots : Portfolio :=
  { stocks :=
      [⟨"AAPL", 150, 50, 1 / 5, [⟨.BUY, "AAPL", 150, 50⟩]⟩,
       ⟨"AAPL", 155, 20, 1 / 5, [⟨.BUY, "AAPL", 155, 20⟩]⟩]
    portfolioName := "Retirement Fund"
    cashBalance := 39400 }

/-- The driver's portfolio after its first purchase only (50 AAPL at 150 out of 50000). -/
def afterApple : Portfolio :=
  { stocks := [⟨"AAPL", 150, 50, 1 / 5, [⟨.BUY, "AAPL", 150, 50⟩]⟩]
    portfolioName := "Retirement Fund"
    cashBalance := 42500 }

theorem findTicker_some {ticker : String} {l pre post : List Stock} {it : Stock}
    (h : findTicker ticker l = some (pre, it, post)) :
    l = pre ++ it :: post ∧ it.ticker = ticker ∧ ∀ x ∈ pre, x.ticker ≠ ticker := by
  induction l generalizing pre with
  | nil => simp [findTicker] at h
  | cons s rest ih =>
    unfold findTicker at h
    by_cases hs : s.getTicker = ticker
    · simp only [hs, if_true, Option.some.injEq, Prod.mk.injEq] at h
      obtain ⟨rfl, rfl, rfl⟩ := h
      exact ⟨rfl, hs, by simp⟩
    · simp only [hs, if_false] at h
      cases hr : findTicker ticker rest with
      | none => simp [hr] at h
      | some r =>
        obtain ⟨pre1, it1, post1⟩ := r
        simp only [hr, Option.some.injEq, Prod.mk.injEq] at h
        obtain ⟨rfl, rfl, rfl⟩ := h
        obtain ⟨h1, h2, h3⟩ := ih hr
        refine ⟨by simp [h1], h2, ?_⟩
        intro x hx
        rcases List.mem_cons.mp hx with rfl | hx
        · exact hs
        · exact h3 x hx

theorem findTicker_append {ticker : String} {pre post : List Stock} {it : Stock}
    (hpre : ∀ x ∈ pre, x.ticker ≠ ticker) (hit : it.ticker = ticker) :
    findTicker ticker (pre ++ it :: post) = some (pre, it, post) := by
  induction pre with
  | nil => simp [findTicker, Stock.getTicker, hit]
  | cons s rest ih =>
    have hs : s.ticker ≠ ticker := hpre s (List.mem_cons_self _ _)
    have hr := ih (fun x hx => hpre x (List.mem_cons_of_mem _ hx))
    simp [findTicker, Stock.getTicker, hs, hr]

theorem findTicker_none {ticker : String} {l : List Stock} :
    findTicker ticker l = none ↔ ∀ x ∈ l, x.ticker ≠ ticker := by
  induction l with
  | nil => simp [findTicker]
  | cons s rest ih =>
    unfold findTicker
    by_cases hs : s.getTicker = ticker
    · simp only [hs, if_true]
      constructor
      · intro h; cases h
      · intro h; exact absurd hs (h s (List.mem_cons_self _ _))
    · simp only [hs, if_false]
      cases hr : findTicker ticker rest with
      | none =>
        simp only [true_iff]
        intro x hx
        rcases List.mem_cons.mp hx with rfl | hx
        · exact hs
        · exact (ih.mp hr) x hx
      | some r =>
        obtain ⟨pre1, it1, post1⟩ := r
        constructor
        · intro h; cases h
        · intro h
          have hn := ih.mpr (fun x hx => h x (List.mem_cons_of_mem _ hx))
          rw [hr] at hn
          cases hn

/-! ## Helper lemmas -/

theorem foldl_add_getValue (l : List Stock) (c : ℚ) :
    l.foldl (fun total it => total + it.getValue) c = c + (l.map Stock.getValue).sum := by
  induction l generalizing c with
  | nil => simp
  | cons s rest ih => simp [ih, add_assoc]

theorem StockOp.call_history (s : Stock) (op : StockOp) :
    ((op.call s).1 = true ∧ ∃ t, (op.call s).2.history = s.history ++ [t]) ∨
    ((op.call s).1 = false ∧ (op.call s).2 = s) := by
  cases op with
  | updatePrice newPrice =>
    by_cases h : newPrice ≥ 0 <;> simp [StockOp.call, Stock.updatePrice, returned, h]
  | addShares additionalQty buyPrice =>
    by_cases h : additionalQty > 0 ∧ buyPrice ≥ 0 <;>
      simp [StockOp.call, Stock.addShares, returned, h]
  | sellShares sellQty sellPrice =>
    by_cases h : sellQty > 0 ∧ sellQty ≤ s.quantity ∧ sellPrice ≥ 0 <;>
      simp [StockOp.call, Stock.sellShares, h]
  | simulatePriceUpdate r =>
    simp only [StockOp.call, Stock.simulatePriceUpdate]
    generalize s.price + _ = np
    by_cases h : np ≥ 0 <;> simp [Stock.updatePrice, returned, h]

theorem StockOp.run_history_length (s : Stock) (ops : List StockOp) :
    (StockOp.run s ops).2.history.length = s.history.length + (StockOp.run s ops).1 := by
  induction ops generalizing s with
  | nil => simp [StockOp.run]
  | cons op ops ih =>
    simp only [StockOp.run]
    rw [ih]
    rcases StockOp.call_history s op with ⟨h1, t, h2⟩ | ⟨h1, h2⟩
    · simp [h1, h2]; omega
    · simp [h1, h2]

/-! ## The Portfolio methods at a located holding -/

theorem sellStock_at {p : Portfolio} {ticker : String} {pre post : List Stock} {it : Stock}
    (hstocks : p.stocks = pre ++ it :: post) (hpre : ∀ x ∈ pre, x.ticker ≠ ticker)
    (hit : it.ticker = ticker) (qty : Int) (sellPrice : ℚ) :
    p.sellStock ticker qty sellPrice =
      if qty > 0 ∧ qty ≤ it.quantity ∧ sellPrice ≥ 0 then
        if it.quantity - qty = 0 then
          (true, { p with cashBalance := p.cashBalance + sellPrice * qty, stocks := pre ++ post })
        else
          (true,
            { p with
              cashBalance := p.cashBalance + sellPrice * qty
              stocks := pre ++
                { it with
                  quantity := it.quantity - qty
                  history := it.history ++ [⟨.SELL, it.ticker, sellPrice, qty⟩] } :: post })
      else (false, p) := by
  unfold Portfolio.sellStock
  rw [hstocks, findTicker_append hpre hit]
  by_cases hg : qty > 0 ∧ qty ≤ it.quantity ∧ sellPrice ≥ 0
  · by_cases hz : it.quantity - qty = 0
    · simp [Stock.sellShares, hg, hz, Stock.getQuantity]
    · simp [Stock.sellShares, hg, hz, Stock.getQuantity]
  · simp only [Stock.sellShares, hg, if_false]
    cases p
    simp_all

theorem sellStock_absent {p : Portfolio} {ticker : String}
    (habs : ∀ x ∈ p.stocks, x.ticker ≠ ticker) (qty : Int) (sellPrice : ℚ) :
    p.sellStock ticker qty sellPrice = (false, p) := by
  unfold Portfolio.sellStock
  rw [findTicker_none.mpr habs]

theorem removeStock_at {p : Portfolio} {ticker : String} {pre post : List Stock} {it : Stock}
    (hstocks : p.stocks = pre ++ it :: post) (hpre : ∀ x ∈ pre, x.ticker ≠ ticker)
    (hit : it.ticker = ticker) :
    p.removeStock ticker =
      (true,
        { p with
          cashBalance := p.cashBalance + it.price * (it.quantity : ℚ)
          stocks := pre ++ post }) := by
  unfold Portfolio.removeStock
  rw [hstocks, findTicker_append hpre hit]
  rfl

theorem removeStock_absent {p : Portfolio} {ticker : String}
    (habs : ∀ x ∈ p.stocks, x.ticker ≠ ticker) :
    p.removeStock ticker = (false, p) := by
  unfold Portfolio.removeStock
  rw [findTicker_none.mpr habs]

theorem updateStockPrice_at {p : Portfolio} {ticker : String} {pre post : List Stock}
    {it : Stock} (hstocks : p.stocks = pre ++ it :: post)
    (hpre : ∀ x ∈ pre, x.ticker ≠ ticker) (hit : it.ticker = ticker) (newPrice : ℚ) :
    p.updateStockPrice ticker newPrice =
      if newPrice ≥ 0 then
        (.ok true,
          { p with
            stocks := pre ++
              { it with
                history := it.history ++ [⟨.PRICE_UPDATE, it.ticker, newPrice, it.quantity⟩]
                price := newPrice } :: post })
      else (.error (.invalid_argument "Price cannot be negative."), p) := by
  unfold Portfolio.updateStockPrice
  rw [hstocks, findTicker_append hpre hit]
  by_cases hg : newPrice ≥ 0
  · simp [Stock.updatePrice, hg]
  · simp only [Stock.updatePrice, hg, if_false]
    cases p
    simp_all

theorem updateStockPrice_absent {p : Portfolio} {ticker : String}
    (habs : ∀ x ∈ p.stocks, x.ticker ≠ ticker) (newPrice : ℚ) :
    p.updateStockPrice ticker newPrice = (.ok false, p) := by
  unfold Portfolio.updateStockPrice
  rw [findTicker_none.mpr habs]

theorem buyStock_at {p : Portfolio} {ticker : String} {pre post : List Stock} {it : Stock}
    (hstocks : p.stocks = pre ++ it :: post) (hpre : ∀ x ∈ pre, x.ticker ≠ ticker)
    (hit : it.ticker = ticker) (price : ℚ) (qty : Int) :
    p.buyStock ticker price qty =
      if price * (qty : ℚ) ≤ p.cashBalance then
        if qty > 0 ∧ price ≥ 0 then
          (.ok [],
            { p with
              stocks := pre ++
                { it with
                  quantity := it.quantity + qty
                  history := it.history ++ [⟨.BUY, it.ticker, price, qty⟩] } :: post
              cashBalance := p.cashBalance - price * (qty : ℚ) })
        else
          (.error (.invalid_argument "Additional quantity and buy price must be positive."), p)
      else (.ok [insufficientCash qty ticker], p) := by
  unfold Portfolio.buyStock
  rw [hstocks, findTicker_append hpre hit]
  by_cases hc : price * (qty : ℚ) ≤ p.cashBalance
  · by_cases hg : qty > 0 ∧ price ≥ 0
    · simp [Stock.addShares, hg, hc]
    · simp only [Stock.addShares, hg, hc, if_false, if_true]
      cases p
      simp_all
  · simp [hc]

theorem buyStock_absent {p : Portfolio} {ticker : String}
    (habs : ∀ x ∈ p.stocks, x.ticker ≠ ticker) (price : ℚ) (qty : Int) :
    p.buyStock ticker price qty =
      if price * (qty : ℚ) ≤ p.cashBalance then
        if price < 0 ∨ qty < 0 then
          (.error (.invalid_argument "Price, quantity, and volatility must be non-negative."), p)
        else
          (.ok [],
            { p with
              stocks := p.stocks ++
                [{ ticker := ticker, price := price, quantity := qty, volatility := 15 / 100,
                   history := [⟨.BUY, ticker, price, qty⟩] }]
              cashBalance := p.cashBalance - price * (qty : ℚ) })
      else (.ok [insufficientCash qty ticker], p) := by
  unfold Portfolio.buyStock
  rw [findTicker_none.mpr habs]
  by_cases hc : price * (qty : ℚ) ≤ p.cashBalance
  · have hv : ¬ ((15 : ℚ) / 100 < 0) := by norm_num
    by_cases hg : price < 0 ∨ qty < 0
    · have hg3 : price < 0 ∨ qty < 0 ∨ (15 : ℚ) / 100 < 0 := by
        rcases hg with h | h
        · exact Or.inl h
        · exact Or.inr (Or.inl h)
      simp only [Stock.ctor, hg3, hg, hc, if_true]
    · have hg3 : ¬ (price < 0 ∨ qty < 0 ∨ (15 : ℚ) / 100 < 0) := by
        rintro (h | h | h)
        · exact hg (Or.inl h)
        · exact hg (Or.inr h)
        · exact hv h
      simp only [Stock.ctor, hg3, hg, hc, if_true, if_false, Portfolio.addStock,
        Stock.getValue]
  · simp [hc]

theorem wrapInt_of_range {x : Int} (hlo : INT_MIN ≤ x) (hhi : x ≤ INT_MAX) : wrapInt x = x := by
  unfold INT_MIN at hlo
  unfold INT_MAX at hhi
  unfold wrapInt
  omega

/-- The two readings of `addShares` agree whenever the sum stays in the range of `int`. -/
theorem addShares32_eq_addShares (s : Stock) (additionalQty : Int) (buyPrice : ℚ)
    (hlo : INT_MIN ≤ s.quantity + additionalQty) (hhi : s.quantity + additionalQty ≤ INT_MAX) :
    s.addShares32 additionalQty buyPrice = s.addShares additionalQty buyPrice := by
  simp only [Stock.addShares32, Stock.addShares, wrapInt_of_range hlo hhi]

theorem buyStock32_at {p : Portfolio} {ticker : String} {pre post : List Stock} {it : Stock}
    (hstocks : p.stocks = pre ++ it :: post) (hpre : ∀ x ∈ pre, x.ticker ≠ ticker)
    (hit : it.ticker = ticker) (price : ℚ) (qty : Int) :
    p.buyStock32 ticker price qty =
      if price * (qty : ℚ) ≤ p.cashBalance then
        if qty > 0 ∧ price ≥ 0 then
          (.ok [],
            { p with
              stocks := pre ++
                { it with
                  quantity := wrapInt (it.quantity + qty)
                  history := it.history ++ [⟨.BUY, it.ticker, price, qty⟩] } :: post
              cashBalance := p.cashBalance - price * (qty : ℚ) })
        else
          (.error (.invalid_argument "Additional quantity and buy price must be positive."), p)
      else (.ok [insufficientCash qty ticker], p) := by
  unfold Portfolio.buyStock32
  rw [hstocks, findTicker_append hpre hit]
  by_cases hc : price * (qty : ℚ) ≤ p.cashBalance
  · by_cases hg : qty > 0 ∧ price ≥ 0
    · simp [Stock.addShares32, hg, hc]
    · simp only [Stock.addShares32, hg, hc, if_false, if_true]
      cases p
      simp_all
  · simp [hc]

/-- For a ticker that is not held there is no `int` addition: the two readings of `buyStock`
coincide. -/
theorem buyStock32_absent {p : Portfolio} {ticker : String}
    (habs : ∀ x ∈ p.stocks, x.ticker ≠ ticker) (price : ℚ) (qty : Int) :
    p.buyStock32 ticker price qty = p.buyStock ticker price qty := by
  unfold Portfolio.buyStock32 Portfolio.buyStock
  rw [findTicker_none.mpr habs]

/-- Every list of holdings either has no holding with the ticker or splits at the first one. -/
theorem split_or_absent (ticker : String) (l : List Stock) :
    (∀ x ∈ l, x.ticker ≠ ticker) ∨
      ∃ pre it post, l = pre ++ it :: post ∧ (∀ x ∈ pre, x.ticker ≠ ticker) ∧
        it.ticker = ticker := by
  cases hf : findTicker ticker l with
  | none => exact Or.inl (findTicker_none.mp hf)
  | some r =>
    obtain ⟨pre, it, post⟩ := r
    obtain ⟨h1, h2, h3⟩ := findTicker_some hf
    exact Or.inr ⟨pre, it, post, h1, h3, h2⟩


/-- The two readings of `buyStock` always agree on the outcome, on the cash balance and on the
tickers held; they can differ only in the share count of the holding bought into. -/
theorem buyStock32_agrees (p : Portfolio) (ticker : String) (price : ℚ) (qty : Int) :
    (p.buyStock32 ticker price qty).1 = (p.buyStock ticker price qty).1 ∧
      (p.buyStock32 ticker price qty).2.cashBalance
        = (p.buyStock ticker price qty).2.cashBalance ∧
      (p.buyStock32 ticker price qty).2.stocks.map Stock.ticker
        = (p.buyStock ticker price qty).2.stocks.map Stock.ticker := by
  rcases split_or_absent ticker p.stocks with habs | ⟨pre, it, post, h1, h2, h3⟩
  · rw [buyStock32_absent habs]
    exact ⟨rfl, rfl, rfl⟩
  · rw [buyStock32_at h1 h2 h3, buyStock_at h1 h2 h3]
    by_cases hc : price * (qty : ℚ) ≤ p.cashBalance
    · by_cases hg : qty > 0 ∧ price ≥ 0
      · rw [if_pos hc, if_pos hg, if_pos hc, if_pos hg]
        refine ⟨rfl, rfl, ?_⟩
        simp only [List.map_append, List.map_cons]
      · rw [if_pos hc, if_neg hg, if_pos hc, if_neg hg]
        exact ⟨rfl, rfl, rfl⟩
    · rw [if_neg hc, if_neg hc]
      exact ⟨rfl, rfl, rfl⟩

/-- The two readings of `buyStock` give the same result whenever the cash does not cover the
cost, and whenever no share count of the portfolio would leave the range of `int` by the
purchase. -/
theorem buyStock32_eq_buyStock (p : Portfolio) (ticker : String) (price : ℚ) (qty : Int)
    (h : price * (qty : ℚ) > p.cashBalance ∨
      ∀ it ∈ p.stocks, INT_MIN ≤ it.quantity + qty ∧ it.quantity + qty ≤ INT_MAX) :
    p.buyStock32 ticker price qty = p.buyStock ticker price qty := by
  rcases split_or_absent ticker p.stocks with habs | ⟨pre, it, post, h1, h2, h3⟩
  · exact buyStock32_absent habs price qty
  · rw [buyStock32_at h1 h2 h3, buyStock_at h1 h2 h3]
    rcases h with h | h
    · have hc : ¬ (price * (qty : ℚ) ≤ p.cashBalance) := not_le.mpr h
      rw [if_neg hc, if_neg hc]
    · have hr := h it (by rw [h1]; simp)
      rw [wrapInt_of_range hr.1 hr.2]

theorem getTotalValue_sub_cash (p : Portfolio) :
    p.getTotalValue - p.cashBalance
      = (p.stocks.map (fun it => it.price * (it.quantity : ℚ))).sum := by
  unfold Portfolio.getTotalValue
  rw [foldl_add_getValue]
  have h : p.stocks.map Stock.getValue = p.stocks.map (fun it => it.price * (it.quantity : ℚ)) :=
    rfl
  rw [h]
  ring

theorem sum_map_div_mul (l : List Stock) (total : ℚ) :
    (l.map (fun it => it.price * (it.quantity : ℚ) / total * 100)).sum
      = (l.map (fun it => it.price * (it.quantity : ℚ))).sum / total * 100 := by
  induction l with
  | nil => simp
  | cons s rest ih =>
    simp only [List.map_cons, List.sum_cons, ih]
    ring

theorem sum_map_eq_zero (l : List Stock)
    (h : ∀ s ∈ l, s.price * (s.quantity : ℚ) = 0) :
    (l.map (fun it => it.price * (it.quantity : ℚ))).sum = 0 := by
  induction l with
  | nil => simp
  | cons s rest ih =>
    simp only [List.map_cons, List.sum_cons]
    rw [h s (List.mem_cons_self _ _), ih (fun x hx => h x (List.mem_cons_of_mem _ hx))]
    ring

theorem StockOp.call_nonneg (s : Stock) (op : StockOp)
    (h : 0 ≤ s.price ∧ 0 ≤ s.quantity ∧ 0 ≤ s.volatility) :
    0 ≤ (op.call s).2.price ∧ 0 ≤ (op.call s).2.quantity ∧ 0 ≤ (op.call s).2.volatility := by
  obtain ⟨h1, h2, h3⟩ := h
  cases op with
  | updatePrice newPrice =>
    by_cases hg : newPrice ≥ 0
    · simp only [StockOp.call, Stock.updatePrice, hg, if_true]
      exact ⟨trivial, h2, h3⟩
    · simp only [StockOp.call, Stock.updatePrice, hg, if_false]
      exact ⟨h1, h2, h3⟩
  | addShares additionalQty buyPrice =>
    by_cases hg : additionalQty > 0 ∧ buyPrice ≥ 0
    · simp only [StockOp.call, Stock.addShares, hg, and_self, if_true]
      exact ⟨h1, by omega, h3⟩
    · simp only [StockOp.call, Stock.addShares, hg, if_false]
      exact ⟨h1, h2, h3⟩
  | sellShares sellQty sellPrice =>
    by_cases hg : sellQty > 0 ∧ sellQty ≤ s.quantity ∧ sellPrice ≥ 0
    · simp only [StockOp.call, Stock.sellShares, hg, and_self, if_true]
      exact ⟨h1, by omega, h3⟩
    · simp only [StockOp.call, Stock.sellShares, hg, if_false]
      exact ⟨h1, h2, h3⟩
  | simulatePriceUpdate r =>
    simp only [StockOp.call, Stock.simulatePriceUpdate]
    generalize s.price + _ = np
    by_cases hg : np ≥ 0
    · simp only [Stock.updatePrice, hg, if_true]
      exact ⟨trivial, h2, h3⟩
    · simp only [Stock.updatePrice, hg, if_false]
      exact ⟨h1, h2, h3⟩

theorem StockOp.run_nonneg (s : Stock) (ops : List StockOp)
    (h : 0 ≤ s.price ∧ 0 ≤ s.quantity ∧ 0 ≤ s.volatility) :
    0 ≤ (StockOp.run s ops).2.price ∧ 0 ≤ (StockOp.run s ops).2.quantity ∧
      0 ≤ (StockOp.run s ops).2.volatility := by
  induction ops generalizing s with
  | nil => simpa [StockOp.run] using h
  | cons op ops ih =>
    simp only [StockOp.run]
    exact ih _ (StockOp.call_nonneg s op h)


/-! ## Simulated price updates -/

theorem drawFactor_bounds (r : Nat) : -1 ≤ drawFactor r ∧ drawFactor r ≤ 99 / 100 := by
  have h1 : r % 200 < 200 := Nat.mod_lt _ (by decide)
  have h2 : ((r % 200 : Nat) : ℚ) ≤ 199 := by
    have h3 : r % 200 ≤ 199 := by omega
    exact_mod_cast h3
  have h4 : (0 : ℚ) ≤ ((r % 200 : Nat) : ℚ) := Nat.cast_nonneg _
  have h5 : ((((r % 200 : Nat) : Int) - 100 : Int) : ℚ) = ((r % 200 : Nat) : ℚ) - 100 := by
    rw [Int.cast_sub, Int.cast_natCast]
    norm_num
  unfold drawFactor
  rw [h5]
  constructor
  · linarith
  · linarith

theorem simulatePriceUpdate_eq (s : Stock) (r : Nat) :
    s.simulatePriceUpdate r = s.updatePrice (s.price * (1 + drawFactor r * s.volatility)) := by
  have h : s.price + (((r % 200 : Nat) : Int) - 100 : Int) / 100 * s.volatility * s.price
      = s.price * (1 + drawFactor r * s.volatility) := by
    unfold drawFactor
    ring
  simp only [Stock.simulatePriceUpdate, h]

theorem simulated_price_nonneg (s : Stock) (r : Nat) (hp : 0 ≤ s.price)
    (hv : 0 ≤ s.volatility) (hv1 : s.volatility ≤ 1) :
    0 ≤ s.price * (1 + drawFactor r * s.volatility) := by
  have hf := (drawFactor_bounds r).1
  have h1 : -s.volatility ≤ drawFactor r * s.volatility := by
    have := mul_le_mul_of_nonneg_right hf hv
    linarith
  exact mul_nonneg hp (by linarith)

theorem simulateLoop_tickers (rand : Nat → Nat) (i : Nat) (l : List Stock) :
    (simulateLoop rand i l).2.map Stock.ticker = l.map Stock.ticker := by
  induction l generalizing i with
  | nil => simp [simulateLoop]
  | cons it rest ih =>
    unfold simulateLoop
    rw [simulatePriceUpdate_eq]
    by_cases hg : it.price * (1 + drawFactor (rand i) * it.volatility) ≥ 0
    · simp only [Stock.updatePrice, hg, if_true, List.map_cons, ih]
    · simp only [Stock.updatePrice, hg, if_false, List.map_cons]

theorem simulateLoop_ok (rand : Nat → Nat) (i : Nat) (l : List Stock)
    (h : ∀ s ∈ l, 0 ≤ s.price ∧ 0 ≤ s.volatility ∧ s.volatility ≤ 1) :
    (simulateLoop rand i l).1 = .ok () := by
  induction l generalizing i with
  | nil => simp [simulateLoop]
  | cons it rest ih =>
    obtain ⟨hp, hv, hv1⟩ := h it (List.mem_cons_self _ _)
    have hg : it.price * (1 + drawFactor (rand i) * it.volatility) ≥ 0 :=
      simulated_price_nonneg it (rand i) hp hv hv1
    unfold simulateLoop
    rw [simulatePriceUpdate_eq]
    simp only [Stock.updatePrice, hg, if_true]
    exact ih (i + 1) (fun x hx => h x (List.mem_cons_of_mem _ hx))

/-! ## Tickers of the holdings -/

theorem nodup_tickers_erase {pre post : List Stock} {it : Stock}
    (h : ((pre ++ it :: post).map Stock.ticker).Nodup) :
    ((pre ++ post).map Stock.ticker).Nodup := by
  refine List.Nodup.sublist ?_ h
  exact List.Sublist.map _
    (List.Sublist.append (List.Sublist.refl pre) (List.sublist_cons_self it post))

theorem nodup_tickers_replace {pre post : List Stock} {it it1 : Stock}
    (hsame : it1.ticker = it.ticker)
    (h : ((pre ++ it :: post).map Stock.ticker).Nodup) :
    ((pre ++ it1 :: post).map Stock.ticker).Nodup := by
  simp only [List.map_append, List.map_cons] at h ⊢
  rw [hsame]
  exact h

theorem nodup_tickers_append {l : List Stock} {s : Stock}
    (h : (l.map Stock.ticker).Nodup) :
    ((l ++ [s]).map Stock.ticker).Nodup ↔ ∀ x ∈ l, x.ticker ≠ s.ticker := by
  simp only [List.map_append, List.map_cons, List.map_nil]
  rw [List.nodup_append]
  constructor
  · rintro ⟨_, _, hd⟩ x hx heq
    exact hd (List.mem_map_of_mem Stock.ticker hx) (by simp [heq])
  · intro hne
    refine ⟨h, List.nodup_singleton _, ?_⟩
    intro t ht hs
    obtain ⟨x, hx, rfl⟩ := List.mem_map.mp ht
    have : x.ticker = s.ticker := by simpa using hs
    exact hne x hx this


/-! ## Share counts of the holdings -/

theorem positive_replace {pre post : List Stock} {it it1 : Stock}
    (h : ∀ s ∈ pre ++ it :: post, 0 < s.quantity) (h1 : 0 < it1.quantity) :
    ∀ s ∈ pre ++ it1 :: post, 0 < s.quantity := by
  intro s hs
  rcases List.mem_append.mp hs with hs | hs
  · exact h s (List.mem_append_left _ hs)
  · rcases List.mem_cons.mp hs with rfl | hs
    · exact h1
    · exact h s (List.mem_append_right _ (List.mem_cons_of_mem _ hs))

theorem positive_erase {pre post : List Stock} {it : Stock}
    (h : ∀ s ∈ pre ++ it :: post, 0 < s.quantity) :
    ∀ s ∈ pre ++ post, 0 < s.quantity := by
  intro s hs
  rcases List.mem_append.mp hs with hs | hs
  · exact h s (List.mem_append_left _ hs)
  · exact h s (List.mem_append_right _ (List.mem_cons_of_mem _ hs))

/-- One call keeps every share count positive, unless it is a `buyStock` with `qty = 0`. -/
theorem PortfolioOp.call_positive (p p1 : Portfolio) (op : PortfolioOp)
    (hbuy : ∀ ticker price qty, op = .buyStock ticker price qty → qty ≠ 0)
    (hinv : ∀ s ∈ p.stocks, 0 < s.quantity) (hcall : op.call p = some p1) :
    ∀ s ∈ p1.stocks, 0 < s.quantity := by
  cases op with
  | buyStock ticker price qty =>
    have hq : qty ≠ 0 := hbuy ticker price qty rfl
    simp only [PortfolioOp.call] at hcall
    rcases split_or_absent ticker p.stocks with habs | ⟨pre, it, post, h1, h2, h3⟩
    · rw [buyStock_absent habs] at hcall
      by_cases hc : price * (qty : ℚ) ≤ p.cashBalance
      · by_cases hg : price < 0 ∨ qty < 0
        · simp [hc, hg, returned] at hcall
        · simp only [hc, hg, if_true, if_false, returned, Option.some.injEq] at hcall
          subst hcall
          intro s hs
          rcases List.mem_append.mp hs with hs | hs
          · exact hinv s hs
          · rw [List.mem_singleton.mp hs]
            simp only [not_or, not_lt] at hg
            show 0 < qty
            omega
      · simp only [hc, if_false, returned, if_true, Option.some.injEq] at hcall
        subst hcall
        exact hinv
    · rw [buyStock_at h1 h2 h3] at hcall
      by_cases hc : price * (qty : ℚ) ≤ p.cashBalance
      · by_cases hg : qty > 0 ∧ price ≥ 0
        · simp only [hc, hg, and_self, if_true, returned, Option.some.injEq] at hcall
          subst hcall
          rw [h1] at hinv
          refine positive_replace hinv ?_
          have hit := hinv it (by simp)
          show 0 < it.quantity + qty
          omega
        · simp [hc, hg, returned] at hcall
      · simp only [hc, if_false, returned, if_true, Option.some.injEq] at hcall
        subst hcall
        exact hinv
  | sellStock ticker qty sellPrice =>
    simp only [PortfolioOp.call, Option.some.injEq] at hcall
    subst hcall
    rcases split_or_absent ticker p.stocks with habs | ⟨pre, it, post, h1, h2, h3⟩
    · rw [sellStock_absent habs]
      exact hinv
    · rw [sellStock_at h1 h2 h3]
      by_cases hg : qty > 0 ∧ qty ≤ it.quantity ∧ sellPrice ≥ 0
      · by_cases hz : it.quantity - qty = 0
        · simp only [hg, hz, and_self, if_true]
          rw [h1] at hinv
          exact positive_erase hinv
        · simp only [hg, hz, and_self, if_true, if_false]
          rw [h1] at hinv
          refine positive_replace hinv ?_
          show 0 < it.quantity - qty
          omega
      · simp only [hg, if_false]
        exact hinv
  | removeStock ticker =>
    simp only [PortfolioOp.call, Option.some.injEq] at hcall
    subst hcall
    rcases split_or_absent ticker p.stocks with habs | ⟨pre, it, post, h1, h2, h3⟩
    · rw [removeStock_absent habs]
      exact hinv
    · rw [removeStock_at h1 h2 h3]
      rw [h1] at hinv
      exact positive_erase hinv
  | updateStockPrice ticker newPrice =>
    simp only [PortfolioOp.call] at hcall
    rcases split_or_absent ticker p.stocks with habs | ⟨pre, it, post, h1, h2, h3⟩
    · rw [updateStockPrice_absent habs] at hcall
      simp only [returned, if_true, Option.some.injEq] at hcall
      subst hcall
      exact hinv
    · rw [updateStockPrice_at h1 h2 h3] at hcall
      by_cases hg : newPrice ≥ 0
      · simp only [hg, if_true, returned, Option.some.injEq] at hcall
        subst hcall
        rw [h1] at hinv
        refine positive_replace hinv ?_
        exact hinv it (by simp)
      · simp [hg, returned] at hcall

/-- With share counts read as unbounded integers, every holding is held with a positive share
count after any run without error, from the empty portfolio, of `buyStock`, `sellStock`,
`removeStock` and `updateStockPrice` calls in which no `buyStock` has `qty = 0`. -/
theorem PortfolioOp.run_positive (ops : List PortfolioOp) (p p1 : Portfolio)
    (hbuy : ∀ op ∈ ops, ∀ ticker price qty, op = .buyStock ticker price qty → qty ≠ 0)
    (hinv : ∀ s ∈ p.stocks, 0 < s.quantity) (hrun : PortfolioOp.run p ops = some p1) :
    ∀ s ∈ p1.stocks, 0 < s.quantity := by
  induction ops generalizing p with
  | nil =>
    simp only [PortfolioOp.run, Option.some.injEq] at hrun
    subst hrun
    exact hinv
  | cons op ops ih =>
    simp only [PortfolioOp.run] at hrun
    cases hc : op.call p with
    | none => simp [hc] at hrun
    | some p2 =>
      simp only [hc] at hrun
      exact ih p2 (fun o ho => hbuy o (List.mem_cons_of_mem _ ho))
        (PortfolioOp.call_positive p p2 op (hbuy op (List.mem_cons_self _ _)) hinv hc) hrun


/-! ## Claims -/

/-- C1: `Portfolio::getTotalValue` returns the cash balance plus the sum over all holdings
(in vector order, duplicates included) of price times quantity, in exact arithmetic; with no
holdings it returns the cash balance. -/
theorem getTotalValue_eq_cash_add_sum (p : Portfolio) :
    p.getTotalValue
        = p.cashBalance + (p.stocks.map (fun s => s.price * (s.quantity : ℚ))).sum ∧
      ∀ (name : String) (cash : ℚ),
        Portfolio.getTotalValue { stocks := [], portfolioName := name, cashBalance := cash }
          = cash := by
  constructor
  · unfold Portfolio.getTotalValue
    rw [foldl_add_getValue]
    rfl
  · intro name cash
    simp [Portfolio.getTotalValue]

/-- C2: `Stock::sellShares(sellQty, sellPrice)` returns `true` exactly when
`0 < sellQty ≤ quantity` and `sellPrice ≥ 0`; on `true` the quantity drops by `sellQty`, one
SELL transaction `(sellPrice, sellQty)` is appended and nothing else changes; on `false` the
Stock is unchanged.  It never throws (its outcome is a plain `Bool`). -/
theorem sellShares_spec (s : Stock) (sellQty : Int) (sellPrice : ℚ) :
    ((s.sellShares sellQty sellPrice).1 = true
        ↔ (0 < sellQty ∧ sellQty ≤ s.quantity ∧ 0 ≤ sellPrice)) ∧
      ((s.sellShares sellQty sellPrice).1 = true →
        (s.sellShares sellQty sellPrice).2 =
          { ticker := s.ticker
            price := s.price
            quantity := s.quantity - sellQty
            volatility := s.volatility
            history := s.history ++ [⟨.SELL, s.ticker, sellPrice, sellQty⟩] }) ∧
      ((s.sellShares sellQty sellPrice).1 = false → (s.sellShares sellQty sellPrice).2 = s) := by
  by_cases h : sellQty > 0 ∧ sellQty ≤ s.quantity ∧ sellPrice ≥ 0
  · have h1 := h
    simp only [gt_iff_lt, ge_iff_le] at h1
    simp [Stock.sellShares, h, h1]
  · have h1 := h
    simp only [gt_iff_lt, ge_iff_le] at h1
    simp [Stock.sellShares, h, h1]

/-- C3: when `price * qty` exceeds the cash balance, `Portfolio::buyStock` returns normally,
having printed the insufficient-cash line, and the portfolio (cash, every holding with its
history) is unchanged, whether or not the ticker is held. -/
theorem buyStock_insufficient_cash (p : Portfolio) (ticker : String) (price : ℚ) (qty : Int)
    (h : price * qty > p.cashBalance) :
    p.buyStock ticker price qty = (.ok [insufficientCash qty ticker], p) := by
  have hc : ¬ (price * (qty : ℚ) ≤ p.cashBalance) := not_le.mpr h
  unfold Portfolio.buyStock
  cases hf : findTicker ticker p.stocks with
  | none => simp [hc]
  | some r =>
    obtain ⟨pre, it, post⟩ := r
    simp [hc]

/-- Witness for C3: buying 20 AAPL at 155 with only 100 in cash, AAPL being held. -/
theorem buyStock_insufficient_cash_witness :
    Portfolio.buyStock
        { stocks := [⟨"AAPL", 150, 50, 1 / 5, [⟨.BUY, "AAPL", 150, 50⟩]⟩]
          portfolioName := "Retirement Fund"
          cashBalance := 100 } "AAPL" 155 20
      = (.ok [insufficientCash 20 "AAPL"],
          { stocks := [⟨"AAPL", 150, 50, 1 / 5, [⟨.BUY, "AAPL", 150, 50⟩]⟩]
            portfolioName := "Retirement Fund"
            cashBalance := 100 }) :=
  buyStock_insufficient_cash _ "AAPL" 155 20 (by norm_num)

/-- C5: the constructor `Stock(t, p, q, vol)` throws `invalid_argument` exactly when
`p < 0` or `q < 0` or `vol < 0`; otherwise it yields the Stock with these fields and a history
of exactly one transaction, the BUY of `(t, p, q)`. -/
theorem Stock_ctor_spec (t : String) (p : ℚ) (q : Int) (vol : ℚ) :
    ((∃ msg, Stock.ctor t p q vol = .error (.invalid_argument msg)) ↔ (p < 0 ∨ q < 0 ∨ vol < 0)) ∧
      ((∃ s, Stock.ctor t p q vol = .ok s) ↔ ¬ (p < 0 ∨ q < 0 ∨ vol < 0)) ∧
      ∀ s, Stock.ctor t p q vol = .ok s →
        s = { ticker := t, price := p, quantity := q, volatility := vol,
              history := [⟨.BUY, t, p, q⟩] } := by
  by_cases h : p < 0 ∨ q < 0 ∨ vol < 0
  · simp [Stock.ctor, h]
  · simp only [Stock.ctor, h, if_false]
    refine ⟨by simp, by simp, ?_⟩
    intro s hs
    cases hs
    rfl

/-- C6: a successful `updatePrice`, `addShares`, `sellShares` or `simulatePriceUpdate` appends
exactly one transaction to the history and a failed one leaves the Stock as it was; hence after
any sequence of such calls on a freshly constructed Stock the history length is 1 plus the
number of calls that succeeded. -/
theorem history_length_eq_one_add_successes (t : String) (p : ℚ) (q : Int) (vol : ℚ)
    (s0 : Stock) (ops : List StockOp) (h : Stock.ctor t p q vol = .ok s0) :
    (∀ (s : Stock) (op : StockOp),
        ((op.call s).1 = true ∧ ∃ tr, (op.call s).2.history = s.history ++ [tr]) ∨
        ((op.call s).1 = false ∧ (op.call s).2 = s)) ∧
      (StockOp.run s0 ops).2.history.length = 1 + (StockOp.run s0 ops).1 := by
  refine ⟨StockOp.call_history, ?_⟩
  rw [StockOp.run_history_length]
  by_cases hg : p < 0 ∨ q < 0 ∨ vol < 0
  · simp [Stock.ctor, hg] at h
  · simp only [Stock.ctor, hg, if_false] at h
    cases h
    simp

/-- Witness for C6: a fresh AAPL Stock, then a price update, a sale of more shares than held
(fails), a purchase of zero shares (throws) and a simulated update. -/
theorem history_length_eq_one_add_successes_witness :
    Stock.ctor "AAPL" 150 50 (1 / 5)
        = .ok ⟨"AAPL", 150, 50, 1 / 5, [⟨.BUY, "AAPL", 150, 50⟩]⟩ ∧
      (StockOp.run ⟨"AAPL", 150, 50, 1 / 5, [⟨.BUY, "AAPL", 150, 50⟩]⟩
          [.updatePrice 160, .sellShares 100 1, .addShares 0 1, .simulatePriceUpdate 7]).2.history.length
        = 1 + (StockOp.run ⟨"AAPL", 150, 50, 1 / 5, [⟨.BUY, "AAPL", 150, 50⟩]⟩
          [.updatePrice 160, .sellShares 100 1, .addShares 0 1, .simulatePriceUpdate 7]).1 :=
  ⟨by norm_num [Stock.ctor],
    (history_length_eq_one_add_successes "AAPL" 150 50 (1 / 5) _ _
      (by norm_num [Stock.ctor])).2⟩

/-- C8: when the first holding with the ticker has more than `qty` shares, `0 < qty` and
`sellPrice ≥ 0`, `Portfolio::sellStock` returns `true`, adds exactly `sellPrice * qty` to the
cash balance, keeps that holding in its place with `qty` fewer shares (same price; the SELL is
appended to its history) and leaves every other holding as it was. -/
theorem sellStock_partial (p : Portfolio) (ticker : String) (pre post : List Stock)
    (it : Stock) (qty : Int) (sellPrice : ℚ)
    (hstocks : p.stocks = pre ++ it :: post) (hpre : ∀ x ∈ pre, x.ticker ≠ ticker)
    (hit : it.ticker = ticker) (hqty : 0 < qty) (hlt : qty < it.quantity)
    (hprice : 0 ≤ sellPrice) :
    p.sellStock ticker qty sellPrice =
      (true,
        { stocks := pre ++
            { ticker := it.ticker
              price := it.price
              quantity := it.quantity - qty
              volatility := it.volatility
              history := it.history ++ [⟨.SELL, it.ticker, sellPrice, qty⟩] } :: post
          portfolioName := p.portfolioName
          cashBalance := p.cashBalance + sellPrice * qty }) := by
  rw [sellStock_at hstocks hpre hit]
  have hg : qty > 0 ∧ qty ≤ it.quantity ∧ sellPrice ≥ 0 := ⟨hqty, le_of_lt hlt, hprice⟩
  have hz : ¬ (it.quantity - qty = 0) := by omega
  simp only [hg, hz, and_self, if_true, if_false]

/-- Witness for C8: selling 5 of the 10 GOOG shares at 2050 credits 10250. -/
theorem sellStock_partial_witness :
    retire.sellStock "GOOG" 5 2050 =
      (true,
        { stocks :=
            [⟨"AAPL", 150, 50, 1 / 5, [⟨.BUY, "AAPL", 150, 50⟩]⟩] ++
              { ticker := "GOOG"
                price := 2000
                quantity := 10 - 5
                volatility := 1 / 10
                history := [⟨.BUY, "GOOG", 2000, 10⟩] ++ [⟨.SELL, "GOOG", 2050, 5⟩] } ::
              [⟨"BND", 80, 100, 1 / 20, [⟨.BUY, "BND", 80, 100⟩]⟩]
          portfolioName := "Retirement Fund"
          cashBalance := 14500 + 2050 * ((5 : Int) : ℚ) }) :=
  sellStock_partial retire "GOOG"
    [⟨"AAPL", 150, 50, 1 / 5, [⟨.BUY, "AAPL", 150, 50⟩]⟩]
    [⟨"BND", 80, 100, 1 / 20, [⟨.BUY, "BND", 80, 100⟩]⟩]
    ⟨"GOOG", 2000, 10, 1 / 10, [⟨.BUY, "GOOG", 2000, 10⟩]⟩ 5 2050
    rfl (by simp) rfl (by decide) (by decide) (by norm_num)

/-- C9: the soft failures of a Portfolio leave it unchanged.  Whenever `sellStock` or
`removeStock` returns `false`, or `updateStockPrice` returns `false`, the portfolio after the
call is the portfolio before it (and no exception is thrown); and each listed cause does give
that `false`: the ticker not held (for all three, with any `newPrice`), and for `sellStock` on
a held ticker `qty ≤ 0`, `qty` above the holding's quantity or `sellPrice < 0`. -/
theorem soft_failures_leave_state (p : Portfolio) (ticker : String) (qty : Int)
    (sellPrice newPrice : ℚ) :
    ((p.sellStock ticker qty sellPrice).1 = false → (p.sellStock ticker qty sellPrice).2 = p) ∧
      ((p.removeStock ticker).1 = false → (p.removeStock ticker).2 = p) ∧
      ((p.updateStockPrice ticker newPrice).1 = .ok false →
        (p.updateStockPrice ticker newPrice).2 = p) ∧
      ((∀ x ∈ p.stocks, x.ticker ≠ ticker) →
        p.sellStock ticker qty sellPrice = (false, p) ∧ p.removeStock ticker = (false, p) ∧
          p.updateStockPrice ticker newPrice = (.ok false, p)) ∧
      (∀ pre it post, p.stocks = pre ++ it :: post → (∀ x ∈ pre, x.ticker ≠ ticker) →
        it.ticker = ticker → (qty ≤ 0 ∨ it.quantity < qty ∨ sellPrice < 0) →
        p.sellStock ticker qty sellPrice = (false, p)) := by
  refine ⟨?_, ?_, ?_, ?_, ?_⟩
  · rcases split_or_absent ticker p.stocks with habs | ⟨pre, it, post, h1, h2, h3⟩
    · rw [sellStock_absent habs]
      intro _
      rfl
    · rw [sellStock_at h1 h2 h3]
      by_cases hg : qty > 0 ∧ qty ≤ it.quantity ∧ sellPrice ≥ 0
      · by_cases hz : it.quantity - qty = 0 <;> simp [hg, hz]
      · simp [hg]
  · rcases split_or_absent ticker p.stocks with habs | ⟨pre, it, post, h1, h2, h3⟩
    · rw [removeStock_absent habs]
      intro _
      rfl
    · rw [removeStock_at h1 h2 h3]
      intro h
      cases h
  · rcases split_or_absent ticker p.stocks with habs | ⟨pre, it, post, h1, h2, h3⟩
    · rw [updateStockPrice_absent habs]
      intro _
      rfl
    · rw [updateStockPrice_at h1 h2 h3]
      by_cases hg : newPrice ≥ 0
      · simp [hg]
      · simp [hg]
  · intro habs
    exact ⟨sellStock_absent habs _ _, removeStock_absent habs, updateStockPrice_absent habs _⟩
  · intro pre it post h1 h2 h3 hbad
    rw [sellStock_at h1 h2 h3]
    have hg : ¬ (qty > 0 ∧ qty ≤ it.quantity ∧ sellPrice ≥ 0) := by
      rintro ⟨g1, g2, g3⟩
      rcases hbad with h | h | h
      · omega
      · omega
      · exact absurd g3 (not_le.mpr h)
    simp only [hg, if_false]

/-- C10: when the ticker is held, `Portfolio::updateStockPrice(ticker, newPrice)` with
`newPrice < 0` throws `invalid_argument` and leaves the whole portfolio unchanged; with
`newPrice ≥ 0` it returns `true`, the first holding with the ticker gets price `newPrice` and
one PRICE_UPDATE appended to its history, and nothing else changes. -/
theorem updateStockPrice_held (p : Portfolio) (ticker : String) (pre post : List Stock)
    (it : Stock) (newPrice : ℚ)
    (hstocks : p.stocks = pre ++ it :: post) (hpre : ∀ x ∈ pre, x.ticker ≠ ticker)
    (hit : it.ticker = ticker) :
    (newPrice < 0 →
        ∃ msg, p.updateStockPrice ticker newPrice = (.error (.invalid_argument msg), p)) ∧
      (0 ≤ newPrice →
        p.updateStockPrice ticker newPrice =
          (.ok true,
            { stocks := pre ++
                { ticker := it.ticker
                  price := newPrice
                  quantity := it.quantity
                  volatility := it.volatility
                  history :=
                    it.history ++ [⟨.PRICE_UPDATE, it.ticker, newPrice, it.quantity⟩] } :: post
              portfolioName := p.portfolioName
              cashBalance := p.cashBalance })) := by
  rw [updateStockPrice_at hstocks hpre hit]
  constructor
  · intro hneg
    have hg : ¬ (newPrice ≥ 0) := not_le.mpr hneg
    refine ⟨"Price cannot be negative.", ?_⟩
    simp only [hg, if_false]
  · intro hpos
    have hg : newPrice ≥ 0 := hpos
    simp only [hg, if_true]

/-- Witness for C10: `updateStockPrice("BND", -1.0)` on the driver's portfolio throws and
changes nothing. -/
theorem updateStockPrice_held_witness :
    ∃ msg, retire.updateStockPrice "BND" (-1) = (.error (.invalid_argument msg), retire) :=
  (updateStockPrice_held retire "BND"
    [⟨"AAPL", 150, 50, 1 / 5, [⟨.BUY, "AAPL", 150, 50⟩]⟩,
     ⟨"GOOG", 2000, 10, 1 / 10, [⟨.BUY, "GOOG", 2000, 10⟩]⟩]
    [] ⟨"BND", 80, 100, 1 / 20, [⟨.BUY, "BND", 80, 100⟩]⟩ (-1)
    rfl (by simp) rfl).1 (by norm_num)

/-- C4, as stated, fails when the ticker is held twice: selling all 50 shares of the first AAPL
holding succeeds and erases that holding only; the second AAPL holding is still present, and
`removeStock`, `updateStockPrice` and `sellStock` for AAPL then succeed. -/
theorem sellStock_to_zero_duplicate_counterexample :
    twoLots.sellStock "AAPL" 50 160 =
        (true,
          { stocks := [⟨"AAPL", 155, 20, 1 / 5, [⟨.BUY, "AAPL", 155, 20⟩]⟩]
            portfolioName := "Retirement Fund"
            cashBalance := 47400 }) ∧
      ((twoLots.sellStock "AAPL" 50 160).2.removeStock "AAPL").1 = true ∧
      ((twoLots.sellStock "AAPL" 50 160).2.updateStockPrice "AAPL" 1).1 = .ok true ∧
      ((twoLots.sellStock "AAPL" 50 160).2.sellStock "AAPL" 1 1).1 = true := by
  have h : twoLots.sellStock "AAPL" 50 160 =
      (true,
        { stocks := [⟨"AAPL", 155, 20, 1 / 5, [⟨.BUY, "AAPL", 155, 20⟩]⟩]
          portfolioName := "Retirement Fund"
          cashBalance := 47400 }) := by
    rw [@sellStock_at _ _ [] [⟨"AAPL", 155, 20, 1 / 5, [⟨.BUY, "AAPL", 155, 20⟩]⟩]
      ⟨"AAPL", 150, 50, 1 / 5, [⟨.BUY, "AAPL", 150, 50⟩]⟩ rfl (by simp) rfl]
    norm_num [twoLots]
  rw [h]
  refine ⟨rfl, ?_, ?_, ?_⟩
  · rw [@removeStock_at _ _ [] [] ⟨"AAPL", 155, 20, 1 / 5, [⟨.BUY, "AAPL", 155, 20⟩]⟩
      rfl (by simp) rfl]
  · rw [@updateStockPrice_at _ _ [] [] ⟨"AAPL", 155, 20, 1 / 5, [⟨.BUY, "AAPL", 155, 20⟩]⟩
      rfl (by simp) rfl]
    norm_num
  · rw [@sellStock_at _ _ [] [] ⟨"AAPL", 155, 20, 1 / 5, [⟨.BUY, "AAPL", 155, 20⟩]⟩
      rfl (by simp) rfl]
    norm_num

/-- C4, amended: when no other holding has the ticker, a successful `Portfolio::sellStock`
that sells all the shares of the holding erases it, no holding with the ticker is left, and a
following `removeStock`, `updateStockPrice` or `sellStock` for the ticker returns `false`
without changing anything. -/
theorem sellStock_to_zero_removes_ticker (p : Portfolio) (ticker : String)
    (pre post : List Stock) (it : Stock) (qty : Int) (sellPrice : ℚ)
    (hstocks : p.stocks = pre ++ it :: post) (hpre : ∀ x ∈ pre, x.ticker ≠ ticker)
    (hit : it.ticker = ticker) (hpost : ∀ x ∈ post, x.ticker ≠ ticker)
    (hsucc : (p.sellStock ticker qty sellPrice).1 = true) (hzero : it.quantity - qty = 0) :
    (p.sellStock ticker qty sellPrice).2.stocks = pre ++ post ∧
      (∀ x ∈ (p.sellStock ticker qty sellPrice).2.stocks, x.ticker ≠ ticker) ∧
      ∀ (q : Int) (sp np : ℚ),
        (p.sellStock ticker qty sellPrice).2.removeStock ticker
            = (false, (p.sellStock ticker qty sellPrice).2) ∧
          (p.sellStock ticker qty sellPrice).2.updateStockPrice ticker np
            = (.ok false, (p.sellStock ticker qty sellPrice).2) ∧
          (p.sellStock ticker qty sellPrice).2.sellStock ticker q sp
            = (false, (p.sellStock ticker qty sellPrice).2) := by
  have hst : (p.sellStock ticker qty sellPrice).2.stocks = pre ++ post := by
    rw [sellStock_at hstocks hpre hit] at hsucc ⊢
    by_cases hg : qty > 0 ∧ qty ≤ it.quantity ∧ sellPrice ≥ 0
    · simp only [hg, hzero, and_self, if_true]
    · simp [hg] at hsucc
  have habs : ∀ x ∈ (p.sellStock ticker qty sellPrice).2.stocks, x.ticker ≠ ticker := by
    rw [hst]
    intro x hx
    rcases List.mem_append.mp hx with h | h
    · exact hpre x h
    · exact hpost x h
  refine ⟨hst, habs, ?_⟩
  intro q sp np
  exact ⟨removeStock_absent habs, updateStockPrice_absent habs np, sellStock_absent habs q sp⟩

/-- Witness for C4 (amended): selling all 10 GOOG shares of the driver's portfolio. -/
theorem sellStock_to_zero_removes_ticker_witness :
    (retire.sellStock "GOOG" 10 2050).2.stocks =
        [⟨"AAPL", 150, 50, 1 / 5, [⟨.BUY, "AAPL", 150, 50⟩]⟩] ++
          [⟨"BND", 80, 100, 1 / 20, [⟨.BUY, "BND", 80, 100⟩]⟩] ∧
      (retire.sellStock "GOOG" 10 2050).2.removeStock "GOOG"
        = (false, (retire.sellStock "GOOG" 10 2050).2) :=
  have h := sellStock_to_zero_removes_ticker retire "GOOG"
    [⟨"AAPL", 150, 50, 1 / 5, [⟨.BUY, "AAPL", 150, 50⟩]⟩]
    [⟨"BND", 80, 100, 1 / 20, [⟨.BUY, "BND", 80, 100⟩]⟩]
    ⟨"GOOG", 2000, 10, 1 / 10, [⟨.BUY, "GOOG", 2000, 10⟩]⟩ 10 2050
    rfl (by simp) rfl (by simp)
    (by
      rw [@sellStock_at _ _ [⟨"AAPL", 150, 50, 1 / 5, [⟨.BUY, "AAPL", 150, 50⟩]⟩]
        [⟨"BND", 80, 100, 1 / 20, [⟨.BUY, "BND", 80, 100⟩]⟩]
        ⟨"GOOG", 2000, 10, 1 / 10, [⟨.BUY, "GOOG", 2000, 10⟩]⟩ rfl (by simp) rfl]
      norm_num)
    (by decide)
  ⟨h.1, (h.2.2 0 0 0).1⟩

/-- C11: `Portfolio::addStock(s)` appends `s` at the end of the holdings whatever tickers are
already held, deducts exactly `s.price * s.quantity` from the cash balance without any funds
check, and leaves `getTotalValue()` unchanged.  From 50000 in cash, adding (AAPL, 150, 50)
gives 42500 in cash and a total value of 50000; a second AAPL holding can be added next to the
first; and the cash can become negative. -/
theorem addStock_spec (p : Portfolio) (s : Stock) :
    (p.addStock s).stocks = p.stocks ++ [s] ∧
      (p.addStock s).portfolioName = p.portfolioName ∧
      (p.addStock s).cashBalance = p.cashBalance - s.price * (s.quantity : ℚ) ∧
      (p.addStock s).getTotalValue = p.getTotalValue ∧
      (Portfolio.ctor "Retirement Fund" 50000).addStock
          ⟨"AAPL", 150, 50, 1 / 5, [⟨.BUY, "AAPL", 150, 50⟩]⟩ = afterApple ∧
      afterApple.cashBalance = 42500 ∧
      afterApple.getTotalValue = 50000 ∧
      afterApple.addStock ⟨"AAPL", 155, 20, 1 / 5, [⟨.BUY, "AAPL", 155, 20⟩]⟩ = twoLots ∧
      ((Portfolio.ctor "Retirement Fund" 0).addStock
          ⟨"AAPL", 150, 50, 1 / 5, [⟨.BUY, "AAPL", 150, 50⟩]⟩).cashBalance < 0 := by
  refine ⟨rfl, rfl, rfl, ?_, ?_, rfl, ?_, ?_, ?_⟩
  · simp only [Portfolio.getTotalValue, foldl_add_getValue, Portfolio.addStock,
      List.map_append, List.sum_append, List.map_cons, List.map_nil, List.sum_cons,
      List.sum_nil]
    ring
  · have hn : ("Retirement Fund" : String).isEmpty = false := by decide
    simp only [Portfolio.ctor, Portfolio.addStock, afterApple, hn, Stock.getValue]
    norm_num
  · norm_num [Portfolio.getTotalValue, afterApple, Stock.getValue]
  · norm_num [Portfolio.addStock, afterApple, twoLots, Stock.getValue]
  · norm_num [Portfolio.ctor, Portfolio.addStock, Stock.getValue]

/-- C12: when the ticker is held, `Portfolio::removeStock(ticker)` returns `true`, credits the
cash balance with exactly price times quantity of the first holding with the ticker, erases
that one holding, keeps all the others unchanged and in their order, and so leaves
`getTotalValue()` unchanged. -/
theorem removeStock_held (p : Portfolio) (ticker : String) (pre post : List Stock)
    (it : Stock) (hstocks : p.stocks = pre ++ it :: post)
    (hpre : ∀ x ∈ pre, x.ticker ≠ ticker) (hit : it.ticker = ticker) :
    p.removeStock ticker =
        (true,
          { stocks := pre ++ post
            portfolioName := p.portfolioName
            cashBalance := p.cashBalance + it.price * (it.quantity : ℚ) }) ∧
      (p.removeStock ticker).2.getTotalValue = p.getTotalValue := by
  rw [removeStock_at hstocks hpre hit]
  refine ⟨rfl, ?_⟩
  simp only [Portfolio.getTotalValue, foldl_add_getValue, hstocks, List.map_append,
    List.sum_append, List.map_cons, List.sum_cons]
  simp only [Stock.getValue]
  ring

/-- Witness for C12: removing AAPL (50 shares at 150) from the driver's portfolio credits 7500
and keeps GOOG and BND in their order. -/
theorem removeStock_held_witness :
    retire.removeStock "AAPL" =
        (true,
          { stocks := [] ++
              [⟨"GOOG", 2000, 10, 1 / 10, [⟨.BUY, "GOOG", 2000, 10⟩]⟩,
               ⟨"BND", 80, 100, 1 / 20, [⟨.BUY, "BND", 80, 100⟩]⟩]
            portfolioName := "Retirement Fund"
            cashBalance := 14500 + 150 * ((50 : Int) : ℚ) }) ∧
      (retire.removeStock "AAPL").2.getTotalValue = retire.getTotalValue :=
  removeStock_held retire "AAPL" []
    [⟨"GOOG", 2000, 10, 1 / 10, [⟨.BUY, "GOOG", 2000, 10⟩]⟩,
     ⟨"BND", 80, 100, 1 / 20, [⟨.BUY, "BND", 80, 100⟩]⟩]
    ⟨"AAPL", 150, 50, 1 / 5, [⟨.BUY, "AAPL", 150, 50⟩]⟩ rfl (by simp) rfl

/-- C13: `Stock::updatePrice(newPrice)` throws `invalid_argument` and changes nothing when
`newPrice < 0`; otherwise it sets the price to `newPrice`, leaves ticker, quantity and
volatility as they were and appends one PRICE_UPDATE transaction carrying the new price and
the current quantity. -/
theorem updatePrice_spec (s : Stock) (newPrice : ℚ) :
    (newPrice < 0 →
        ∃ msg, s.updatePrice newPrice = (.error (.invalid_argument msg), s)) ∧
      (0 ≤ newPrice →
        s.updatePrice newPrice =
          (.ok (),
            { ticker := s.ticker
              price := newPrice
              quantity := s.quantity
              volatility := s.volatility
              history := s.history ++ [⟨.PRICE_UPDATE, s.ticker, newPrice, s.quantity⟩] })) := by
  constructor
  · intro hneg
    have hg : ¬ (newPrice ≥ 0) := not_le.mpr hneg
    refine ⟨"Price cannot be negative.", ?_⟩
    simp only [Stock.updatePrice, hg, if_false]
  · intro hpos
    have hg : newPrice ≥ 0 := hpos
    simp only [Stock.updatePrice, hg, if_true]

/-- C14, as stated, fails at the end of the range of `int`: the Stock constructed as
`Stock("BIG", 0.0, 2147483647, 0.5)` accepts `addShares(1, 0.0)`, and its quantity is then
-2147483648, not 2147483647 + 1. -/
theorem addShares_overflow_counterexample :
    Stock.ctor "BIG" 0 2147483647 (1 / 2)
        = .ok ⟨"BIG", 0, 2147483647, 1 / 2, [⟨.BUY, "BIG", 0, 2147483647⟩]⟩ ∧
      Stock.addShares32 ⟨"BIG", 0, 2147483647, 1 / 2, [⟨.BUY, "BIG", 0, 2147483647⟩]⟩ 1 0 =
        (.ok (),
          ⟨"BIG", 0, -2147483648, 1 / 2,
            [⟨.BUY, "BIG", 0, 2147483647⟩, ⟨.BUY, "BIG", 0, 1⟩]⟩) ∧
      (Stock.addShares32
          ⟨"BIG", 0, 2147483647, 1 / 2, [⟨.BUY, "BIG", 0, 2147483647⟩]⟩ 1 0).2.quantity
        ≠ 2147483647 + 1 := by
  have hw : wrapInt (2147483647 + 1) = -2147483648 := by
    unfold wrapInt
    norm_num
  have h : Stock.addShares32
      ⟨"BIG", 0, 2147483647, 1 / 2, [⟨.BUY, "BIG", 0, 2147483647⟩]⟩ 1 0 =
      (.ok (),
        ⟨"BIG", 0, -2147483648, 1 / 2,
          [⟨.BUY, "BIG", 0, 2147483647⟩, ⟨.BUY, "BIG", 0, 1⟩]⟩) := by
    have hg : (1 : Int) > 0 ∧ (0 : ℚ) ≥ 0 := ⟨by decide, le_refl 0⟩
    simp only [Stock.addShares32, hg, and_self, if_true, hw]
    rfl
  refine ⟨by norm_num [Stock.ctor], h, ?_⟩
  rw [h]
  decide

/-- C14, amended: `Stock::addShares(qty, buyPrice)` throws `invalid_argument` exactly when not
(`qty > 0` and `buyPrice ≥ 0`), and then the Stock is unchanged; a `buyPrice` of 0 is accepted.
On success the price of the Stock stays what it was (it is not set to `buyPrice`), one BUY
transaction `(buyPrice, qty)` is appended and, provided `quantity + qty` does not exceed
`INT_MAX`, the quantity grows by `qty`. -/
theorem addShares_spec (s : Stock) (qty : Int) (buyPrice : ℚ) :
    ((∃ msg, (s.addShares32 qty buyPrice).1 = .error (.invalid_argument msg))
        ↔ ¬ (qty > 0 ∧ buyPrice ≥ 0)) ∧
      (¬ (qty > 0 ∧ buyPrice ≥ 0) → (s.addShares32 qty buyPrice).2 = s) ∧
      (qty > 0 ∧ buyPrice ≥ 0 →
        (s.addShares32 qty buyPrice).1 = .ok () ∧
          (s.addShares32 qty buyPrice).2.ticker = s.ticker ∧
          (s.addShares32 qty buyPrice).2.price = s.price ∧
          (s.addShares32 qty buyPrice).2.volatility = s.volatility ∧
          (s.addShares32 qty buyPrice).2.history
            = s.history ++ [⟨.BUY, s.ticker, buyPrice, qty⟩]) ∧
      (qty > 0 ∧ buyPrice ≥ 0 → INT_MIN ≤ s.quantity → s.quantity + qty ≤ INT_MAX →
        s.addShares32 qty buyPrice =
          (.ok (),
            { ticker := s.ticker
              price := s.price
              quantity := s.quantity + qty
              volatility := s.volatility
              history := s.history ++ [⟨.BUY, s.ticker, buyPrice, qty⟩] })) ∧
      (qty > 0 → (s.addShares32 qty 0).1 = .ok ()) := by
  refine ⟨?_, ?_, ?_, ?_, ?_⟩
  · by_cases hg : qty > 0 ∧ buyPrice ≥ 0
    · simp only [Stock.addShares32, hg, and_self, if_true, not_true_eq_false, iff_false]
      rintro ⟨msg, h⟩
      cases h
    · simp only [Stock.addShares32, hg, if_false, not_false_eq_true, iff_true]
      exact ⟨_, rfl⟩
  · intro hg
    simp only [Stock.addShares32, hg, if_false]
  · intro hg
    simp only [Stock.addShares32, hg, and_self, if_true]
  · intro hg hlo hhi
    have hw : wrapInt (s.quantity + qty) = s.quantity + qty :=
      wrapInt_of_range (by unfold INT_MIN at *; omega) hhi
    simp only [Stock.addShares32, hg, and_self, if_true, hw]
  · intro hq
    have hg : qty > 0 ∧ (0 : ℚ) ≥ 0 := ⟨hq, le_refl 0⟩
    simp only [Stock.addShares32, hg, and_self, if_true]

/-- Witness for C14 (amended): 20 shares bought at 155 are added to 50 AAPL shares. -/
theorem addShares_spec_witness :
    Stock.addShares32 ⟨"AAPL", 150, 50, 1 / 5, [⟨.BUY, "AAPL", 150, 50⟩]⟩ 20 155 =
      (.ok (),
        { ticker := "AAPL"
          price := 150
          quantity := 50 + 20
          volatility := 1 / 5
          history := [⟨.BUY, "AAPL", 150, 50⟩] ++ [⟨.BUY, "AAPL", 155, 20⟩] }) :=
  (addShares_spec ⟨"AAPL", 150, 50, 1 / 5, [⟨.BUY, "AAPL", 150, 50⟩]⟩ 20 155).2.2.2.1
    ⟨by decide, by norm_num⟩ (by decide) (by decide)

/-- C15: with the non-cash total `getTotalValue() - cash`: when it is positive,
`printDiversification` prints for each holding the percentage
`price * quantity / total * 100`, and these percentages add up to exactly 100; when it is not
positive (as with no holdings, or holdings all of value zero) it prints the no-data line only
and computes no percentage, so nothing is ever divided by zero. -/
theorem printDiversification_spec (p : Portfolio) :
    (p.getTotalValue - p.cashBalance > 0 →
        p.printDiversification =
            .text "Portfolio Diversification:" ::
              p.stocks.map (fun it =>
                .share it.ticker
                  (it.price * (it.quantity : ℚ) / (p.getTotalValue - p.cashBalance) * 100)) ∧
          (p.stocks.map (fun it =>
            it.price * (it.quantity : ℚ) / (p.getTotalValue - p.cashBalance) * 100)).sum
              = 100) ∧
      (p.getTotalValue - p.cashBalance ≤ 0 →
        p.printDiversification = [.text "No stock value to analyze diversification"]) ∧
      ((∀ s ∈ p.stocks, s.price * (s.quantity : ℚ) = 0) →
        p.getTotalValue - p.cashBalance ≤ 0) := by
  refine ⟨?_, ?_, ?_⟩
  · intro hpos
    have hg : ¬ (p.getTotalValue - p.cashBalance ≤ 0) := not_le.mpr hpos
    constructor
    · simp only [Portfolio.printDiversification, hg, if_false]
      rfl
    · rw [sum_map_div_mul, ← getTotalValue_sub_cash]
      have hne : p.getTotalValue - p.cashBalance ≠ 0 := ne_of_gt hpos
      rw [div_self hne]
      norm_num
  · intro hle
    simp only [Portfolio.printDiversification, hle, if_true]
  · intro hz
    rw [getTotalValue_sub_cash, sum_map_eq_zero _ hz]

/-- Witness for C15: the driver's portfolio has a non-cash total of 35500, so the three
percentages (AAPL, GOOG, BND) are printed and add up to 100. -/
theorem printDiversification_spec_witness :
    retire.getTotalValue - retire.cashBalance = 35500 ∧
      retire.printDiversification =
        .text "Portfolio Diversification:" ::
          retire.stocks.map (fun it =>
            .share it.ticker
              (it.price * (it.quantity : ℚ) / (retire.getTotalValue - retire.cashBalance)
                * 100)) ∧
      (retire.stocks.map (fun it =>
        it.price * (it.quantity : ℚ) / (retire.getTotalValue - retire.cashBalance) * 100)).sum
          = 100 :=
  have ht : retire.getTotalValue - retire.cashBalance = 35500 := by
    norm_num [Portfolio.getTotalValue, retire, Stock.getValue]
  have h := (printDiversification_spec retire).1 (by rw [ht]; norm_num)
  ⟨ht, h.1, h.2⟩

/-- C16: non-negativity is an invariant of `Stock`: a successfully constructed Stock has
`price ≥ 0`, `quantity ≥ 0` and `volatility ≥ 0`, and so it has after every call of any
sequence of `updatePrice`, `addShares`, `sellShares` and `simulatePriceUpdate` calls, whether
the calls succeed or fail. -/
theorem stock_nonneg_invariant (t : String) (p : ℚ) (q : Int) (vol : ℚ) (s0 : Stock)
    (ops : List StockOp) (h : Stock.ctor t p q vol = .ok s0) :
    (0 ≤ s0.price ∧ 0 ≤ s0.quantity ∧ 0 ≤ s0.volatility) ∧
      ∀ k : Nat,
        0 ≤ (StockOp.run s0 (ops.take k)).2.price ∧
          0 ≤ (StockOp.run s0 (ops.take k)).2.quantity ∧
          0 ≤ (StockOp.run s0 (ops.take k)).2.volatility := by
  have h0 : 0 ≤ s0.price ∧ 0 ≤ s0.quantity ∧ 0 ≤ s0.volatility := by
    by_cases hg : p < 0 ∨ q < 0 ∨ vol < 0
    · simp [Stock.ctor, hg] at h
    · simp only [Stock.ctor, hg, if_false] at h
      cases h
      simp only [not_or, not_lt] at hg
      exact hg
  exact ⟨h0, fun k => StockOp.run_nonneg s0 (ops.take k) h0⟩

/-- Witness for C16: a fresh AAPL Stock, then a sale of all 50 shares, a negative price update
(throws), a simulated update and a second sale (fails). -/
theorem stock_nonneg_invariant_witness :
    Stock.ctor "AAPL" 150 50 (1 / 5)
        = .ok ⟨"AAPL", 150, 50, 1 / 5, [⟨.BUY, "AAPL", 150, 50⟩]⟩ ∧
      0 ≤ (StockOp.run ⟨"AAPL", 150, 50, 1 / 5, [⟨.BUY, "AAPL", 150, 50⟩]⟩
          (List.take 4 [.sellShares 50 160, .updatePrice (-1), .simulatePriceUpdate 0,
            .sellShares 1 1])).2.quantity :=
  ⟨by norm_num [Stock.ctor],
    ((stock_nonneg_invariant "AAPL" 150 50 (1 / 5) _
      [.sellShares 50 160, .updatePrice (-1), .simulatePriceUpdate 0, .sellShares 1 1]
      (by norm_num [Stock.ctor])).2 4).2.1⟩

/-- C17: `Portfolio::buyStock` never drives the cash balance negative: from a cash balance
`≥ 0`, whatever the ticker, price and quantity and whichever branch is taken (ticker held or
new, purchase made, refused for lack of cash, or rejected with an exception), the cash balance
after the call is still `≥ 0`. -/
theorem buyStock_cash_nonneg (p : Portfolio) (ticker : String) (price : ℚ) (qty : Int)
    (h : 0 ≤ p.cashBalance) : 0 ≤ (p.buyStock ticker price qty).2.cashBalance := by
  rcases split_or_absent ticker p.stocks with habs | ⟨pre, it, post, h1, h2, h3⟩
  · rw [buyStock_absent habs]
    by_cases hc : price * (qty : ℚ) ≤ p.cashBalance
    · by_cases hg : price < 0 ∨ qty < 0
      · simp only [hc, hg, if_true]
        exact h
      · simp only [hc, hg, if_true, if_false]
        exact sub_nonneg.mpr hc
    · simp only [hc, if_false]
      exact h
  · rw [buyStock_at h1 h2 h3]
    by_cases hc : price * (qty : ℚ) ≤ p.cashBalance
    · by_cases hg : qty > 0 ∧ price ≥ 0
      · simp only [hc, hg, and_self, if_true]
        exact sub_nonneg.mpr hc
      · simp only [hc, hg, if_true, if_false]
        exact h
    · simp only [hc, if_false]
      exact h

/-- Witness for C17: buying 20 AAPL at 155 with 42500 in cash. -/
theorem buyStock_cash_nonneg_witness :
    0 ≤ afterApple.cashBalance ∧ 0 ≤ (afterApple.buyStock "AAPL" 155 20).2.cashBalance :=
  ⟨by norm_num [afterApple],
    buyStock_cash_nonneg afterApple "AAPL" 155 20 (by norm_num [afterApple])⟩

/-- C18: ticker uniqueness is preserved by the operations that look the ticker up first: when
the holdings have pairwise distinct tickers, they still have after any `buyStock`,
`sellStock`, `removeStock`, `updateStockPrice` or `simulateMarketUpdate` call (whatever its
outcome); `addStock(s)` keeps the tickers distinct exactly when the ticker of `s` is not held,
so only `addStock` with a held ticker introduces a duplicate. -/
theorem ticker_uniqueness_preserved (p : Portfolio)
    (hnd : (p.stocks.map Stock.ticker).Nodup) :
    (∀ (ticker : String) (price : ℚ) (qty : Int),
        ((p.buyStock ticker price qty).2.stocks.map Stock.ticker).Nodup) ∧
      (∀ (ticker : String) (qty : Int) (sellPrice : ℚ),
        ((p.sellStock ticker qty sellPrice).2.stocks.map Stock.ticker).Nodup) ∧
      (∀ ticker : String, ((p.removeStock ticker).2.stocks.map Stock.ticker).Nodup) ∧
      (∀ (ticker : String) (newPrice : ℚ),
        ((p.updateStockPrice ticker newPrice).2.stocks.map Stock.ticker).Nodup) ∧
      (∀ rand : Nat → Nat, ((p.simulateMarketUpdate rand).2.stocks.map Stock.ticker).Nodup) ∧
      (∀ s : Stock,
        ((p.addStock s).stocks.map Stock.ticker).Nodup ↔ ∀ x ∈ p.stocks, x.ticker ≠ s.ticker) := by
  refine ⟨?_, ?_, ?_, ?_, ?_, ?_⟩
  · intro ticker price qty
    rcases split_or_absent ticker p.stocks with habs | ⟨pre, it, post, h1, h2, h3⟩
    · rw [buyStock_absent habs]
      by_cases hc : price * (qty : ℚ) ≤ p.cashBalance
      · by_cases hg : price < 0 ∨ qty < 0
        · simp only [hc, hg, if_true]
          exact hnd
        · simp only [hc, hg, if_true, if_false]
          exact (nodup_tickers_append hnd).mpr habs
      · simp only [hc, if_false]
        exact hnd
    · rw [buyStock_at h1 h2 h3]
      by_cases hc : price * (qty : ℚ) ≤ p.cashBalance
      · by_cases hg : qty > 0 ∧ price ≥ 0
        · simp only [hc, hg, and_self, if_true]
          rw [h1] at hnd
          exact @nodup_tickers_replace pre post it _ rfl hnd
        · simp only [hc, hg, if_true, if_false]
          exact hnd
      · simp only [hc, if_false]
        exact hnd
  · intro ticker qty sellPrice
    rcases split_or_absent ticker p.stocks with habs | ⟨pre, it, post, h1, h2, h3⟩
    · rw [sellStock_absent habs]
      exact hnd
    · rw [sellStock_at h1 h2 h3]
      by_cases hg : qty > 0 ∧ qty ≤ it.quantity ∧ sellPrice ≥ 0
      · by_cases hz : it.quantity - qty = 0
        · simp only [hg, hz, and_self, if_true]
          rw [h1] at hnd
          exact nodup_tickers_erase hnd
        · simp only [hg, hz, and_self, if_true, if_false]
          rw [h1] at hnd
          exact @nodup_tickers_replace pre post it _ rfl hnd
      · simp only [hg, if_false]
        exact hnd
  · intro ticker
    rcases split_or_absent ticker p.stocks with habs | ⟨pre, it, post, h1, h2, h3⟩
    · rw [removeStock_absent habs]
      exact hnd
    · rw [removeStock_at h1 h2 h3]
      rw [h1] at hnd
      exact nodup_tickers_erase hnd
  · intro ticker newPrice
    rcases split_or_absent ticker p.stocks with habs | ⟨pre, it, post, h1, h2, h3⟩
    · rw [updateStockPrice_absent habs]
      exact hnd
    · rw [updateStockPrice_at h1 h2 h3]
      by_cases hg : newPrice ≥ 0
      · simp only [hg, if_true]
        rw [h1] at hnd
        exact @nodup_tickers_replace pre post it _ rfl hnd
      · simp only [hg, if_false]
        exact hnd
  · intro rand
    simp only [Portfolio.simulateMarketUpdate, simulateLoop_tickers]
    exact hnd
  · intro s
    exact nodup_tickers_append hnd

/-- Witness for C18: the driver's portfolio (AAPL, GOOG, BND) keeps distinct tickers when TSLA
is bought and when all GOOG shares are sold. -/
theorem ticker_uniqueness_preserved_witness :
    (retire.stocks.map Stock.ticker).Nodup ∧
      ((retire.buyStock "TSLA" 200 10).2.stocks.map Stock.ticker).Nodup ∧
      ((retire.sellStock "GOOG" 10 2050).2.stocks.map Stock.ticker).Nodup :=
  ⟨by simp [retire],
    (ticker_uniqueness_preserved retire (by simp [retire])).1 "TSLA" 200 10,
    (ticker_uniqueness_preserved retire (by simp [retire])).2.1 "GOOG" 10 2050⟩

/-- C20: with the draw `r` of `rand()` as an input, `simulatePriceUpdate` calls `updatePrice`
with `price * (1 + f * volatility)` where `f = ((r mod 200) - 100) / 100` lies in
`[-1, 0.99]`, and sets the price to that value when it is `≥ 0`.  For a Stock (price and
volatility `≥ 0`) with volatility `≤ 1` the new price is `≥ 0` for every draw and the call does
not throw; a throw implies volatility `> 1` and price `> 0`; and `simulateMarketUpdate` on a
portfolio whose holdings all have volatility `≤ 1` returns normally for every sequence of
draws. -/
theorem simulatePriceUpdate_safe (s : Stock) (r : Nat) (p : Portfolio) (rand : Nat → Nat)
    (hp : 0 ≤ s.price) (hv : 0 ≤ s.volatility) :
    drawFactor r = (((r % 200 : Nat) : ℚ) - 100) / 100 ∧
      (-1 ≤ drawFactor r ∧ drawFactor r ≤ 99 / 100) ∧
      s.simulatePriceUpdate r
        = s.updatePrice (s.price * (1 + drawFactor r * s.volatility)) ∧
      (0 ≤ s.price * (1 + drawFactor r * s.volatility) →
        s.simulatePriceUpdate r =
          (.ok (),
            { ticker := s.ticker
              price := s.price * (1 + drawFactor r * s.volatility)
              quantity := s.quantity
              volatility := s.volatility
              history := s.history ++
                [⟨.PRICE_UPDATE, s.ticker, s.price * (1 + drawFactor r * s.volatility),
                  s.quantity⟩] })) ∧
      (s.volatility ≤ 1 →
        0 ≤ s.price * (1 + drawFactor r * s.volatility) ∧
          (s.simulatePriceUpdate r).1 = .ok ()) ∧
      ((∃ e, (s.simulatePriceUpdate r).1 = .error e) → 1 < s.volatility ∧ 0 < s.price) ∧
      ((∀ x ∈ p.stocks, 0 ≤ x.price ∧ 0 ≤ x.volatility ∧ x.volatility ≤ 1) →
        (p.simulateMarketUpdate rand).1 = .ok ()) := by
  refine ⟨?_, drawFactor_bounds r, simulatePriceUpdate_eq s r, ?_, ?_, ?_, ?_⟩
  · unfold drawFactor
    rw [Int.cast_sub, Int.cast_natCast]
    norm_num
  · intro hnn
    have hg : s.price * (1 + drawFactor r * s.volatility) ≥ 0 := hnn
    rw [simulatePriceUpdate_eq]
    simp only [Stock.updatePrice, hg, if_true]
  · intro hv1
    have hg : s.price * (1 + drawFactor r * s.volatility) ≥ 0 :=
      simulated_price_nonneg s r hp hv hv1
    refine ⟨hg, ?_⟩
    rw [simulatePriceUpdate_eq]
    simp only [Stock.updatePrice, hg, if_true]
  · rintro ⟨e, he⟩
    rw [simulatePriceUpdate_eq] at he
    by_cases hg : s.price * (1 + drawFactor r * s.volatility) ≥ 0
    · simp [Stock.updatePrice, hg] at he
    · have hlt : s.price * (1 + drawFactor r * s.volatility) < 0 := not_le.mp hg
      constructor
      · by_contra hv1
        exact hg (simulated_price_nonneg s r hp hv (not_lt.mp hv1))
      · rcases lt_or_eq_of_le hp with h | h
        · exact h
        · rw [← h] at hlt
          simp at hlt
  · intro hall
    simp only [Portfolio.simulateMarketUpdate]
    exact simulateLoop_ok rand 0 p.stocks hall

/-- Witness for C20: AAPL at 150 with volatility 0.2 and the draw 7, and the driver's portfolio
(volatilities 0.2, 0.1 and 0.05) with every draw equal to 0, the largest fall. -/
theorem simulatePriceUpdate_safe_witness :
    ((0 : ℚ) ≤ 150 ∧ (0 : ℚ) ≤ 1 / 5) ∧
      (Stock.simulatePriceUpdate ⟨"AAPL", 150, 50, 1 / 5, [⟨.BUY, "AAPL", 150, 50⟩]⟩ 7).1
        = .ok () ∧
      (retire.simulateMarketUpdate (fun _ => 0)).1 = .ok () :=
  have h := simulatePriceUpdate_safe ⟨"AAPL", 150, 50, 1 / 5, [⟨.BUY, "AAPL", 150, 50⟩]⟩ 7
    retire (fun _ => 0) (by norm_num) (by norm_num)
  ⟨⟨by norm_num, by norm_num⟩, (h.2.2.2.2.1 (by norm_num)).2,
    h.2.2.2.2.2.2 (by
      intro x hx
      simp only [retire, List.mem_cons, List.mem_singleton, List.not_mem_nil, or_false] at hx
      rcases hx with rfl | rfl | rfl <;> norm_num)⟩

/-- C19 at its failing input: on the empty portfolio with 50000 in cash, `buyStock("AAPL",
150.0, 0)` completes without error (the cost 0 is covered, the constructor accepts the quantity
0) and leaves an AAPL holding of 0 shares, so not every holding has quantity `> 0`; the same call
on a portfolio that already holds AAPL is rejected with `invalid_argument`. -/
theorem buyStock_zero_qty_new_ticker :
    PortfolioOp.run (Portfolio.ctor "Retirement Fund" 50000) [.buyStock "AAPL" 150 0]
        = some
          { stocks := [⟨"AAPL", 150, 0, 15 / 100, [⟨.BUY, "AAPL", 150, 0⟩]⟩]
            portfolioName := "Retirement Fund"
            cashBalance := 50000 } ∧
      ¬ (∀ s ∈ ((Portfolio.ctor "Retirement Fund" 50000).buyStock "AAPL" 150 0).2.stocks,
          0 < s.quantity) ∧
      afterApple.buyStock "AAPL" 150 0 =
        (.error (.invalid_argument "Additional quantity and buy price must be positive."),
          afterApple) := by
  have hn : ("Retirement Fund" : String).isEmpty = false := by decide
  have hb : (Portfolio.ctor "Retirement Fund" 50000).buyStock "AAPL" 150 0 =
      (.ok [],
        { stocks := [⟨"AAPL", 150, 0, 15 / 100, [⟨.BUY, "AAPL", 150, 0⟩]⟩]
          portfolioName := "Retirement Fund"
          cashBalance := 50000 }) := by
    rw [buyStock_absent (by simp [Portfolio.ctor])]
    norm_num [Portfolio.ctor, hn]
  refine ⟨?_, ?_, ?_⟩
  · simp only [PortfolioOp.run, PortfolioOp.call, hb, returned, if_true]
  · rw [hb]
    intro h
    have h0 := h ⟨"AAPL", 150, 0, 15 / 100, [⟨.BUY, "AAPL", 150, 0⟩]⟩ (by simp)
    exact absurd h0 (by decide)
  · rw [@buyStock_at _ _ [] [] ⟨"AAPL", 150, 50, 1 / 5, [⟨.BUY, "AAPL", 150, 50⟩]⟩
      rfl (by simp) rfl]
    norm_num [afterApple]

end PortfolioCpp
